import Mathlib

/-!
# Verification of the `BaseLayout` attribute-tracking / CSS-synthesis engine

A shallow embedding of `src/elements/base.ts` (class `BaseLayout`).

JavaScript data structures are embedded as follows:

* A JS `Map` is an insertion-ordered association list `List (κ × ν)`:
  `Map.get` is `alookup` (first match), `Map.set` is `mapSet` (update in
  place when the key is present, append otherwise — exactly JS `Map`
  semantics, where updating a key keeps its iteration position and
  inserting a fresh key puts it last), `Map.delete` is `mapDelete`, and
  iteration (`Array.from`, `for ... of m.keys()`) is plain list traversal.
* A plain JS object used as a string-keyed record (the CSS buckets) is
  embedded the same way: property assignment `o[k] = v` is `mapSet`
  (JS objects also preserve insertion order for the non-numeric string
  keys used here: selectors and CSS property names).
* `null` and JS `undefined` become `Option.none`; code that would throw a
  `TypeError` (property access on `undefined`) is modelled by returning
  `none` from the embedding of the function in which the throw happens.
* Numbers stored in the value-tracker maps are embedded as `Int`
  (the code only ever adds/subtracts 1, far below any float precision
  boundary, so `Int` is exact).
-/

set_option linter.unusedVariables false
set_option linter.unreachableTactic false
set_option linter.unusedTactic false

namespace FlexLayout

/-! ## Generic association-list operations (JS `Map` / object semantics) -/

variable {α : Type} {β : Type}

/-- JS `Map.get` / object read: value of the first entry with the given key. -/
def alookup [DecidableEq α] : List (α × β) → α → Option β
  | [], _ => none
  | p :: rest, k => if p.1 = k then some p.2 else alookup rest k

/-- JS `Map.has`. -/
def hasKey [DecidableEq α] : List (α × β) → α → Bool
  | [], _ => false
  | p :: rest, k => if p.1 = k then true else hasKey rest k

/-- JS `Map.set` / object write: update in place when present, append when absent. -/
def mapSet [DecidableEq α] (m : List (α × β)) (k : α) (v : β) : List (α × β) :=
  if hasKey m k then m.map (fun p => if p.1 = k then (k, v) else p) else m ++ [(k, v)]

/-- JS `Map.delete`: drop the entry carrying the key. -/
def mapDelete [DecidableEq α] : List (α × β) → α → List (α × β)
  | [], _ => []
  | p :: rest, k => if p.1 = k then mapDelete rest k else p :: mapDelete rest k

/-! ## Attribute-name decoding (`name.split(SEPARATOR)`, line 43–44) -/

/-- `export const SEPARATOR = '-'` (line 4). -/
def SEPARATOR : String := "-"

/-- `String.prototype.split('-')` on the underlying character list. -/
def splitSepAux : List Char → List (List Char)
  | [] => [[]]
  | c :: rest =>
    let r := splitSepAux rest
    if c = '-' then [] :: r
    else
      match r with
      | [] => [[c]]
      | s :: ss => (c :: s) :: ss

/-- JS `name.split('-')`. -/
def splitSep (s : String) : List String :=
  (splitSepAux s.toList).map (fun l => ⟨l⟩)

/-- JS `Array.prototype.join('-')`. -/
def joinSep : List String → String
  | [] => ""
  | [s] => s
  | s :: rest => s ++ "-" ++ joinSep rest

/-- `const [prop, ...remainder] = name.split(SEPARATOR)` (line 43). -/
def nameProp (name : String) : String := (splitSep name).headD ""

/-- `const alias = remainder.join(SEPARATOR)` (line 44). -/
def nameAlias (name : String) : String := joinSep (splitSep name).tail

/-! ## The value tracker (`_propertyMap`, `_getValues`, lines 51–62, 213–223) -/

/-- One per-(property, alias) tracked-value map: attribute value → count. -/
abbrev ValueMap := List (String × Int)

/-- `_propertyMap : Map<string, Map<string, number>>` (line 13). -/
abbrev PropertyMap := List (String × ValueMap)

/-- `const key = alias ? `property.alias` : property` (line 214). -/
def trackerKey (property aliasName : String) : String :=
  if aliasName = "" then property else property ++ "." ++ aliasName

/-- `_getValues` (lines 213–223): lazily creates the tracking map for a
previously-unseen key.  Returns the updated `_propertyMap` together with the
map that the source returns by reference. -/
def getValues (pm : PropertyMap) (property aliasName : String) : PropertyMap × ValueMap :=
  let key := trackerKey property aliasName
  match alookup pm key with
  | none => (mapSet pm key [], [])
  | some m => (pm, m)

/-- Lines 51–62 of `attributeChangedCallback`: the reference-count update on
one tracked-value map.  `oldValue`/`newValue` are `none` for JS `null`.
The two `none` branches for `oldValue` are faithful because a JS `Map`
obtained by this code never holds `null` as a key (the increment is guarded
by `newValue !== null` and the decrement by `values.has(oldValue)`), so
`values.has(null)` is `false` and `values.get(null) === 0` is `false`. -/
def recordChange (values : ValueMap) (oldValue newValue : Option String) : ValueMap :=
  let v1 := match oldValue with
    | some o =>
      match alookup values o with
      | some c => mapSet values o (c - 1)
      | none => values
    | none => values
  let v2 := match newValue with
    | some n => mapSet v1 n ((alookup v1 n).getD 0 + 1)
    | none => v1
  match oldValue with
  | some o => if alookup v2 o = some 0 then mapDelete v2 o else v2
  | none => v2

/-- Lines 43–44 and 51–62 of `attributeChangedCallback`: decode the
attribute name and update the tracker.  These are the only lines of the
callback that change any stored count (the later `_buildCss` call only ever
registers fresh *empty* maps through `_getValues`). -/
def trackerStep (pm : PropertyMap) (name : String) (oldValue newValue : Option String) :
    PropertyMap :=
  let prop := nameProp name
  let aliasName := nameAlias name
  let r := getValues pm prop aliasName
  mapSet r.1 (trackerKey prop aliasName) (recordChange r.2 oldValue newValue)

/-- The tracked-value map currently stored for a (property, alias) pair
(absent key read as the empty map, as `_buildCss` effectively does). -/
def tracked (pm : PropertyMap) (property aliasName : String) : ValueMap :=
  (alookup pm (trackerKey property aliasName)).getD []

/-- Count stored for value `v` under tracker key `key` (0 when absent). -/
def countOf (pm : PropertyMap) (key v : String) : Int :=
  (alookup ((alookup pm key).getD []) v).getD 0

/-- The tracker key an attribute name is filed under. -/
def keyOfName (name : String) : String := trackerKey (nameProp name) (nameAlias name)

/-! ## Configuration records (`config.ts` shapes used by `base.ts`) -/

/-- An insertion-ordered bucket of CSS declarations (a JS object
`{cssProp: value}`), and the two-level CSS object built by `_buildCss`. -/
abbrev Decls := List (String × String)

abbrev CssObj := List (String × Decls)

/-- `Property {name, child, updateFn}`: `updateFn(value, alias)` returns the
pair `[hostCssFragment, childCssFragment]`. -/
structure Property where
  name : String
  child : Bool
  updateFn : String → String → Decls × Decls

/-- `BreakPointProperty {alias, mediaQuery, overlapping, properties}`.
The `properties` list holds `Option Property` because line 48
(`bp.properties.push(property)`) pushes the *unchecked* result of
`this._properties.find(...)!`, which is JS `undefined` when no registry
entry matches (line 210). -/
structure BreakPointProperty where
  aliasName : String
  mediaQuery : String
  overlapping : Bool
  properties : List (Option Property)

/-- The mutable per-instance state of a `BaseLayout` element that the core
engine reads and writes: the breakpoint list (whose `properties` lists grow),
the synthetic all-breakpoint, the value tracker, the property registry, the
layout type, the host's current attributes (for `this.hasAttribute`), and the
shadow-root style blocks keyed by their `id` attribute. -/
structure ElemState where
  breakpoints : List BreakPointProperty
  allBreakpoint : BreakPointProperty
  propertyMap : PropertyMap
  properties : List Property
  layoutType : String
  hostAttrs : List String
  styleBlocks : List (String × String)

/-! ## `_buildCss` (lines 148–198) -/

/-- The working state of the `css` object during `_buildCss`: the `:host`
bucket, the `:host>*` bucket, and the dynamically keyed `::slotted(...)`
rules.  The source keeps all three in one JS object whose first two keys are
`':host'` and `':host>*'`; since every dynamic key starts with
`"::slotted("` (and so never collides with the two reserved keys), the
object is exactly `(":host", host) :: (":host>*", allChild) :: extra`
in insertion order — see `assembleCss`. -/
structure CssBuckets where
  host : Decls
  allChild : Decls
  extra : CssObj

/-- Reassemble the JS `css` object from the three buckets (lines 160–162
initialise the two reserved keys first; `::slotted` keys are appended by
line 188). -/
def assembleCss (b : CssBuckets) : CssObj :=
  (":host", b.host) :: (":host>*", b.allChild) :: b.extra

/-- One iteration of the host-scoped loop (lines 164–179): skip when the
tracked-value map is empty, otherwise take the entry at iteration position 0
(`const [[value]] = Array.from(values)`), call `updateFn`, and merge both
returned fragments into the `:host` / `:host>*` buckets key by key. -/
def hostStep (aliasName : String) (acc : PropertyMap × CssBuckets) (p : Property) :
    PropertyMap × CssBuckets :=
  let r := getValues acc.1 p.name aliasName
  match r.2 with
  | [] => (r.1, acc.2)
  | (value, _) :: _ =>
    let f := p.updateFn value aliasName
    (r.1,
      { acc.2 with
        host := f.1.foldl (fun d kv => mapSet d kv.1 kv.2) acc.2.host
        allChild := f.2.foldl (fun d kv => mapSet d kv.1 kv.2) acc.2.allChild })

/-- `::slotted([<name>-<alias>="<value>"])` (lines 185–186), with the bare
name when the alias is empty. -/
def childSelector (name aliasName value : String) : String :=
  let childPropName := if aliasName = "" then name else name ++ SEPARATOR ++ aliasName
  "::slotted([" ++ childPropName ++ "=\"" ++ value ++ "\"])"

/-- One iteration of the child-scoped loop (lines 181–190): one
`::slotted` rule per tracked value, whose declaration bucket is the *first*
component of the `updateFn` result (`const [childCss] = ...`, line 187). -/
def childStep (aliasName : String) (acc : PropertyMap × CssBuckets) (p : Property) :
    PropertyMap × CssBuckets :=
  let r := getValues acc.1 p.name aliasName
  let b := r.2.foldl
    (fun bb kv =>
      { bb with
        extra := mapSet bb.extra (childSelector p.name aliasName kv.1)
          (p.updateFn kv.1 aliasName).1 })
    acc.2
  (r.1, b)

/-- The two property loops of `_buildCss` (lines 153–190): partition into
host-scoped and child-scoped descriptors and fold the two loops, threading
`_propertyMap` through the `_getValues` calls. -/
def buildCssLoops (pm : PropertyMap) (aliasName : String) (props : List Property) :
    PropertyMap × CssBuckets :=
  let parentProps := props.filter (fun p => !p.child)
  let childProps := props.filter (fun p => p.child)
  let r1 := parentProps.foldl (hostStep aliasName) (pm, ⟨[], [], []⟩)
  childProps.foldl (childStep aliasName) r1

/-- `inline ? `inline-${layoutType}` : layoutType` (line 194). -/
def displayValue (inline : Bool) (layoutType : String) : String :=
  if inline then "inline-" ++ layoutType else layoutType

/-- Lines 192–195: inject the `display` declaration into the `:host` bucket
when that bucket is non-empty or `applyDefaults` is set. -/
def injectDisplay (b : CssBuckets) (inline : Bool) (layoutType : String)
    (applyDefaults : Bool) : CssBuckets :=
  let parentSize := b.host.length
  if parentSize != 0 || applyDefaults then
    { b with host := mapSet b.host "display" (displayValue inline layoutType) }
  else b

/-- `_buildCss` on a descriptor list already known to contain no JS
`undefined` entries. -/
def buildCssCore (pm : PropertyMap) (aliasName : String) (props : List Property)
    (inline : Bool) (layoutType : String) (applyDefaults : Bool) : PropertyMap × CssObj :=
  let r := buildCssLoops pm aliasName props
  (r.1, assembleCss (injectDisplay r.2 inline layoutType applyDefaults))

/-- `xs.mapM id` over `Option`: `some` of the unwrapped list iff no entry is
`none`. -/
def allSome : List (Option α) → Option (List α)
  | [] => some []
  | none :: _ => none
  | some a :: rest => (allSome rest).map (a :: ·)

/-- `_buildCss` (lines 148–198).  If any entry of `properties` is JS
`undefined`, line 153 (`properties.filter(p => !p.child)`) throws a
`TypeError` reading `p.child`; that crash is the `none` result. -/
def buildCss (pm : PropertyMap) (aliasName : String) (properties : List (Option Property))
    (inline : Bool) (layoutType : String) (applyDefaults : Bool) :
    Option (PropertyMap × CssObj) :=
  match allSome properties with
  | none => none
  | some props => some (buildCssCore pm aliasName props inline layoutType applyDefaults)

/-! ## `_attachCss` (lines 106–141) -/

/-- The serialization of one declaration bucket by `unwrapCss` (lines
110–127): each entry whose value serializes non-empty contributes
`key: value;` (string values are returned as-is by the length check of
line 111, and an empty-string value is dropped by `if (addCss)`). -/
def unwrapDecls (d : Decls) : String :=
  d.foldl (fun acc kv => acc ++ (if kv.2 = "" then "" else kv.1 ++ ": " ++ kv.2 ++ ";")) ""

/-- The serialization of the `_buildCss` object by `unwrapCss` (lines
110–127): every key whose nested bucket serializes non-empty contributes
`key {declarations}`; empty buckets contribute nothing. -/
def unwrapCss (css : CssObj) : String :=
  css.foldl
    (fun acc kv =>
      acc ++ (let inner := unwrapDecls kv.2
              if inner = "" then "" else kv.1 ++ " \x7b" ++ inner ++ "\x7d"))
    ""

/-- ``const id = `${this._layoutType}-${alias || 'all'}` `` (line 107). -/
def styleId (layoutType aliasName : String) : String :=
  layoutType ++ "-" ++ (if aliasName = "" then "all" else aliasName)

/-- `_attachCss` (lines 106–141): serialize, wrap in `@media`, and store the
text under the style block id (creating the block on first use, replacing
its content otherwise — either way, the id-keyed block map is `mapSet`). -/
def attachCss (blocks : List (String × String)) (css : CssObj)
    (mediaQuery aliasName layoutType : String) : List (String × String) :=
  mapSet blocks (styleId layoutType aliasName)
    ("@media " ++ mediaQuery ++ " \x7b" ++ unwrapCss css ++ "\x7d")

/-! ## `_getBreakpointByAlias`, `_getPropertyByName` (lines 200–211) -/

/-- `this._breakpoints.findIndex(b => b.alias === alias)` (line 201). -/
def findBpIdx : List BreakPointProperty → String → Option Nat
  | [], _ => none
  | b :: rest, a => if b.aliasName = a then some 0 else (findBpIdx rest a).map (· + 1)

/-- `bp.properties.findIndex(p => p.name === prop)` then indexing (lines
207–210).  The outer `none` models the `TypeError` thrown when `findIndex`
evaluates `p.name` on a JS `undefined` entry pushed by an earlier unknown
property (it short-circuits at the first match, so entries after a hit are
not touched); `some none` means "no match". -/
def findPropInList : List (Option Property) → String → Option (Option Property)
  | [], _ => some none
  | none :: _, _ => none
  | some p :: rest, prop =>
    if p.name = prop then some (some p) else findPropInList rest prop

/-- `_getPropertyByName` (lines 206–211): search the breakpoint's own list
first; on a miss fall back to `this._properties.find(p => p.name === prop)!`
whose unchecked result may be JS `undefined` (`some (none, true)`). -/
def getPropertyByName (bpProps : List (Option Property)) (registry : List Property)
    (prop : String) : Option (Option Property × Bool) :=
  match findPropInList bpProps prop with
  | none => none
  | some (some p) => some (some p, false)
  | some none => some (registry.find? (fun p => p.name = prop), true)

/-- Replace the element at one index, leaving the rest untouched (the
in-place mutation of `this._breakpoints[bpIndex].properties`). -/
def modifyAt : List α → Nat → (α → α) → List α
  | [], _, _ => []
  | a :: l, 0, f => f a :: l
  | a :: l, n + 1, f => a :: modifyAt l n f

/-! ## `attributeChangedCallback` (lines 42–68) -/

/-- Write back the (possibly extended) `properties` list of the breakpoint
`attributeChangedCallback` resolved: the push of line 48 mutates either
`this._breakpoints[bpIndex]` or `this._allBreakpoint`. -/
def applyBp (st : ElemState) (bpIdx : Option Nat) (bpProps : List (Option Property)) :
    ElemState :=
  match bpIdx with
  | some i =>
    { st with breakpoints :=
        modifyAt st.breakpoints i (fun b => { b with properties := bpProps }) }
  | none => { st with allBreakpoint := { st.allBreakpoint with properties := bpProps } }

/-- The body of `attributeChangedCallback` (lines 46–67) once the breakpoint
`bp` has been resolved (`bpIdx` records where it lives so the push of line
48 can be written back): resolve the property (pushing a newly seen
descriptor — possibly JS `undefined` — onto `bp.properties`), update the
tracker (lines 51–62 = `trackerStep`), rebuild the breakpoint's CSS and
store its style block.  A `none` result is the `TypeError` crash inside
`_getPropertyByName` or `_buildCss`; the JS mutations performed before the
throw are not represented in a `none` result. -/
def runCallback (st : ElemState) (name : String) (oldValue newValue : Option String)
    (bp : BreakPointProperty) (bpIdx : Option Nat) : Option ElemState :=
  match getPropertyByName bp.properties st.properties (nameProp name) with
  | none => none
  | some (property, newProp) =>
    let bpProps := if newProp then bp.properties ++ [property] else bp.properties
    let st1 := applyBp st bpIdx bpProps
    let pm1 := trackerStep st.propertyMap name oldValue newValue
    let inlineAttr := if bp.aliasName = "" then "inline"
      else "inline" ++ SEPARATOR ++ bp.aliasName
    match buildCss pm1 bp.aliasName bpProps (st.hostAttrs.contains inlineAttr)
        st.layoutType (nameAlias name ≠ "") with
    | none => none
    | some r =>
      some { st1 with
        propertyMap := r.1
        styleBlocks := attachCss st1.styleBlocks r.2 bp.mediaQuery bp.aliasName
          st1.layoutType }

/-- `attributeChangedCallback(name, oldValue, newValue)` (lines 42–68):
decode the name, resolve the breakpoint by alias (falling back to
`_allBreakpoint`, lines 200–204), and run the body. -/
def attributeChangedCallback (st : ElemState) (name : String)
    (oldValue newValue : Option String) : Option ElemState :=
  match findBpIdx st.breakpoints (nameAlias name) with
  | some i =>
    runCallback st name oldValue newValue (st.breakpoints.getD i st.allBreakpoint) (some i)
  | none => runCallback st name oldValue newValue st.allBreakpoint none

/-- The element state right after the constructor (lines 15–35): empty
tracker, the synthetic `_allBreakpoint`, and the initial
`<style id="<layoutType>-all">` block written by line 19. -/
def initState (layoutType : String) (properties : List Property)
    (breakpoints : List BreakPointProperty) (hostAttrs : List String) : ElemState :=
  { breakpoints := breakpoints
    allBreakpoint :=
      { aliasName := "", mediaQuery := "all", overlapping := false, properties := [] }
    propertyMap := []
    properties := properties
    layoutType := layoutType
    hostAttrs := hostAttrs
    styleBlocks :=
      [(layoutType ++ "-all", "@media all \x7b:host \x7bdisplay: " ++ layoutType ++ ";\x7d\x7d")] }

/-! ## Attribute-change event traces

The platform (host `attributeChangedCallback` notifications and the child
`MutationObserver`, lines 76–99) delivers `(attributeName, oldValue,
newValue)` triples originating from individual elements (the host or a
direct child).  `AttrEvent` tags each triple with the originating element so
that well-formedness — the delivered `oldValue` is the value that element
actually had — can be stated. -/

structure AttrEvent where
  elem : Nat
  attrName : String
  oldVal : Option String
  newVal : Option String

/-- The actual attributes in the document: a finite map from
(element, attribute name) to its current value. -/
abbrev Env := List ((Nat × String) × String)

/-- Applying one attribute mutation to the document. -/
def envStep (env : Env) (ev : AttrEvent) : Env :=
  match ev.newVal with
  | some v => mapSet env (ev.elem, ev.attrName) v
  | none => mapDelete env (ev.elem, ev.attrName)

/-- `envStep` over a whole trace. -/
def envRun (env : Env) : List AttrEvent → Env
  | [] => env
  | ev :: rest => envRun (envStep env ev) rest

/-- A trace is well-formed when every event reports as `oldValue` exactly
the value the originating element currently has for that attribute
(`none` = absent), as the DOM delivers. -/
def wellFormedB (env : Env) : List AttrEvent → Bool
  | [] => true
  | ev :: rest =>
    decide (alookup env (ev.elem, ev.attrName) = ev.oldVal) &&
      wellFormedB (envStep env ev) rest

/-- The tracker state after delivering a whole trace to
`attributeChangedCallback` (its lines 51–62 per event, cf. `trackerStep`). -/
def runTracker (pm : PropertyMap) : List AttrEvent → PropertyMap
  | [] => pm
  | ev :: rest => runTracker (trackerStep pm ev.attrName ev.oldVal ev.newVal) rest

/-- Number of attributes currently present in the document whose name
decodes to exactly the (property, alias) pair and whose value is `v`
(`Int`-valued to match the stored counts). -/
def carrierCountPA (env : Env) (prop aliasName v : String) : Int :=
  match env with
  | [] => 0
  | e :: rest =>
    (if nameProp e.1.2 = prop ∧ nameAlias e.1.2 = aliasName ∧ e.2 = v then 1 else 0) +
      carrierCountPA rest prop aliasName v

/-- Number of attributes currently present in the document whose name is
filed under tracker key `key` and whose value is `v`. -/
def carrierCount (env : Env) (key v : String) : Int :=
  match env with
  | [] => 0
  | e :: rest =>
    (if keyOfName e.1.2 = key ∧ e.2 = v then 1 else 0) + carrierCount rest key v

/-- Claim C1 as stated: over every well-formed trace, the count stored under
the key for (property, alias) equals the number of elements currently
carrying that property/alias attribute with that value. -/
def refcountClaimPA : Prop :=
  ∀ evs : List AttrEvent, wellFormedB [] evs = true →
    ∀ prop aliasName v : String,
      countOf (runTracker [] evs) (trackerKey prop aliasName) v =
        carrierCountPA (envRun [] evs) prop aliasName v

/-- No tracked-value map ever stores a count below 1 (C2's invariant). -/
def GoodPM (pm : PropertyMap) : Prop :=
  ∀ kv ∈ pm, ∀ e ∈ kv.2, 1 ≤ e.2

end FlexLayout

namespace FlexLayout

/-! ## Concrete fixtures used by counterexamples and witnesses -/

/-- A well-formed two-event trace whose two attribute names `"a.b"` and
`"a-b"` decode to the distinct pairs `("a.b", "")` and `("a", "b")` yet are
filed under the same tracker key `"a.b"`. -/
def cexTrace : List AttrEvent :=
  [{ elem := 0, attrName := "a.b", oldVal := none, newVal := some "v" },
   { elem := 1, attrName := "a-b", oldVal := none, newVal := some "v" }]

/-- A child-scoped example property. -/
def variantProp : Property :=
  { name := "variant", child := true, updateFn := fun v _ => ([("color", v)], []) }

/-- A host-scoped example property. -/
def justifyProp : Property :=
  { name := "justify", child := false,
    updateFn := fun v _ => ([("justify-content", v)], []) }

/-- A registered example breakpoint with alias `"sm"`. -/
def smBp : BreakPointProperty :=
  { aliasName := "sm", mediaQuery := "(max-width: 599px)", overlapping := false,
    properties := [] }

/-- A freshly constructed flex layout with one child-scoped property. -/
def st0C4 : ElemState := initState "flex" [variantProp] [] []

/-- A freshly constructed flex layout with one host-scoped property and one
registered breakpoint. -/
def st0C8 : ElemState := initState "flex" [justifyProp] [smBp] []

/-- The state reached from `st0C8` by the event `("justify-sm", null, "start")`. -/
def st1C8 : ElemState :=
  (attributeChangedCallback st0C8 "justify-sm" none (some "start")).getD st0C8

/-- The state reached from `st0C8` by the unknown-alias event
`("justify-md", null, "start")`. -/
def st1C10 : ElemState :=
  (attributeChangedCallback st0C8 "justify-md" none (some "start")).getD st0C8

/-! ## Derived observations used in theorem statements -/

/-- Count stored in one tracked-value map (0 when the value is absent). -/
def valCount (vm : ValueMap) (v : String) : Int := (alookup vm v).getD 0

/-- The `:host` declaration bucket of a built CSS object. -/
def hostBucket (css : CssObj) : Decls := (alookup css ":host").getD []

/-- The `:host>*` declaration bucket of a built CSS object. -/
def allChildBucket (css : CssObj) : Decls := (alookup css ":host>*").getD []

/-- The value at iteration position 0 of a tracked-value map
(`Array.from(values)[0][0]`), `none` when the map is empty. -/
def firstValue (vm : ValueMap) : Option String := vm.head?.map Prod.fst

/-- All `::slotted` selectors `_buildCss` will emit for the given property
list from the given tracker state, in emission order. -/
def selectorsOf (pm : PropertyMap) (aliasName : String) (props : List Property) :
    List String :=
  (props.filter (fun p => p.child)).flatMap
    (fun p => (tracked pm p.name aliasName).map
      (fun kv => childSelector p.name aliasName kv.1))

/-- `true` when the string does not contain the `'.'` character (tracker
keys for a non-empty alias always contain one). -/
def dotFree (s : String) : Bool := decide ('.' ∉ s.toList)

/-- The document holds at most one value per (element, attribute) pair. -/
def envNodup (env : Env) : Prop := (env.map Prod.fst).Nodup

end FlexLayout

namespace FlexLayout

/-! # Lemmas -/

/-! ## Association-list lemmas -/

variable {α β : Type}

theorem alookup_eq_none_of_hasKey_false [DecidableEq α] {m : List (α × β)} {k : α}
    (h : hasKey m k = false) : alookup m k = none := by
  induction m with
  | nil => rfl
  | cons p rest ih =>
    by_cases hp : p.1 = k
    · simp only [hasKey, if_pos hp] at h
      cases h
    · simp only [hasKey, if_neg hp] at h
      simp only [alookup, if_neg hp]
      exact ih h

theorem not_key_mem_of_hasKey_false [DecidableEq α] {m : List (α × β)} {k : α}
    (h : hasKey m k = false) : ∀ e ∈ m, e.1 ≠ k := by
  induction m with
  | nil => intro e he; cases he
  | cons p rest ih =>
    intro e he
    by_cases hp : p.1 = k
    · simp only [hasKey, if_pos hp] at h
      cases h
    · simp only [hasKey, if_neg hp] at h
      rcases List.mem_cons.1 he with rfl | hm
      · exact hp
      · exact ih h e hm

theorem alookup_append_single [DecidableEq α] (m : List (α × β)) (k k' : α) (v : β) :
    alookup (m ++ [(k, v)]) k' =
      match alookup m k' with
      | some w => some w
      | none => if k = k' then some v else none := by
  induction m with
  | nil => simp [alookup]
  | cons p rest ih =>
    simp only [List.cons_append, alookup]
    by_cases hp : p.1 = k'
    · simp only [if_pos hp]
    · simp only [if_neg hp]
      exact ih

theorem alookup_map_replace_ne [DecidableEq α] (m : List (α × β)) {k k' : α} (v : β)
    (h : k' ≠ k) :
    alookup (m.map (fun p => if p.1 = k then (k, v) else p)) k' = alookup m k' := by
  induction m with
  | nil => rfl
  | cons p rest ih =>
    simp only [List.map_cons]
    by_cases hp : p.1 = k
    · simp only [if_pos hp, alookup]
      rw [if_neg (fun hh : k = k' => h hh.symm),
        if_neg (fun hh : p.1 = k' => h (hh.symm.trans hp))]
      exact ih
    · simp only [if_neg hp, alookup]
      by_cases hp' : p.1 = k'
      · simp only [if_pos hp']
      · simp only [if_neg hp']
        exact ih

theorem alookup_map_replace_self [DecidableEq α] {m : List (α × β)} {k : α} (v : β)
    (h : hasKey m k = true) :
    alookup (m.map (fun p => if p.1 = k then (k, v) else p)) k = some v := by
  induction m with
  | nil => cases h
  | cons p rest ih =>
    simp only [List.map_cons]
    by_cases hp : p.1 = k
    · simp only [if_pos hp, alookup]
      simp
    · simp only [hasKey, if_neg hp] at h
      simp only [if_neg hp, alookup, if_neg hp]
      exact ih h

theorem alookup_mapSet [DecidableEq α] (m : List (α × β)) (k k' : α) (v : β) :
    alookup (mapSet m k v) k' = if k' = k then some v else alookup m k' := by
  unfold mapSet
  by_cases hk : hasKey m k
  · rw [if_pos hk]
    by_cases h : k' = k
    · subst h
      rw [if_pos rfl, alookup_map_replace_self v hk]
    · rw [if_neg h, alookup_map_replace_ne m v h]
  · rw [if_neg hk, alookup_append_single]
    rw [Bool.not_eq_true] at hk
    by_cases h : k' = k
    · subst h
      rw [alookup_eq_none_of_hasKey_false hk]
    · rw [if_neg h]
      cases hm : alookup m k' with
      | none =>
        show (if k = k' then some v else none) = none
        rw [if_neg (fun hh : k = k' => h hh.symm)]
      | some w => rfl

theorem alookup_mapDelete [DecidableEq α] (m : List (α × β)) (k k' : α) :
    alookup (mapDelete m k) k' = if k' = k then none else alookup m k' := by
  induction m with
  | nil => simp [mapDelete, alookup]
  | cons p rest ih =>
    simp only [mapDelete]
    by_cases hp : p.1 = k
    · rw [if_pos hp, ih]
      by_cases h : k' = k
      · rw [if_pos h, if_pos h]
      · rw [if_neg h, if_neg h, alookup, if_neg (fun hh : p.1 = k' => h (hh ▸ hp ▸ rfl))]
    · rw [if_neg hp]
      simp only [alookup]
      by_cases hp' : p.1 = k'
      · rw [if_pos hp', if_pos hp', if_neg (fun hh : k' = k => hp (hp' ▸ hh))]
      · rw [if_neg hp', if_neg hp', ih]

theorem mem_mapSet_strong [DecidableEq α] {m : List (α × β)} {k : α} {v : β} {e : α × β}
    (h : e ∈ mapSet m k v) : e = (k, v) ∨ (e ∈ m ∧ e.1 ≠ k) := by
  unfold mapSet at h
  by_cases hk : hasKey m k
  · rw [if_pos hk] at h
    rcases List.mem_map.1 h with ⟨a, ha, hfa⟩
    by_cases hp : a.1 = k
    · left
      rw [← hfa, if_pos hp]
    · right
      rw [← hfa, if_neg hp]
      exact ⟨ha, hp⟩
  · rw [if_neg hk] at h
    rcases List.mem_append.1 h with hm | hs
    · right
      rw [Bool.not_eq_true] at hk
      exact ⟨hm, not_key_mem_of_hasKey_false hk e hm⟩
    · left
      simpa using hs

theorem mem_mapDelete_strong [DecidableEq α] {m : List (α × β)} {k : α} {e : α × β}
    (h : e ∈ mapDelete m k) : e ∈ m ∧ e.1 ≠ k := by
  induction m with
  | nil => cases h
  | cons p rest ih =>
    simp only [mapDelete] at h
    by_cases hp : p.1 = k
    · rw [if_pos hp] at h
      exact ⟨List.mem_cons_of_mem _ (ih h).1, (ih h).2⟩
    · rw [if_neg hp] at h
      rcases List.mem_cons.1 h with rfl | hm
      · exact ⟨List.mem_cons_self _ _, hp⟩
      · exact ⟨List.mem_cons_of_mem _ (ih hm).1, (ih hm).2⟩

theorem alookup_mem [DecidableEq α] {m : List (α × β)} {k : α} {v : β}
    (h : alookup m k = some v) : (k, v) ∈ m := by
  induction m with
  | nil => cases h
  | cons p rest ih =>
    simp only [alookup] at h
    by_cases hp : p.1 = k
    · rw [if_pos hp] at h
      cases h
      subst hp
      exact List.mem_cons_self p rest
    · rw [if_neg hp] at h
      exact List.mem_cons_of_mem _ (ih h)

end FlexLayout

namespace FlexLayout

/-! ## `recordChange` lemmas -/

theorem valCount_mapSet (vm : ValueMap) (k x : String) (c : Int) :
    valCount (mapSet vm k c) x = if x = k then c else valCount vm x := by
  unfold valCount
  rw [alookup_mapSet]
  by_cases h : x = k
  · rw [if_pos h, if_pos h]
    rfl
  · rw [if_neg h, if_neg h]

theorem valCount_mapDelete (vm : ValueMap) (k x : String) :
    valCount (mapDelete vm k) x = if x = k then 0 else valCount vm x := by
  unfold valCount
  rw [alookup_mapDelete]
  by_cases h : x = k
  · rw [if_pos h, if_pos h]
    rfl
  · rw [if_neg h, if_neg h]

theorem valCount_nonneg_of_good {vm : ValueMap} (hg : ∀ e ∈ vm, 0 ≤ e.2) (x : String) :
    0 ≤ valCount vm x := by
  unfold valCount
  cases h : alookup vm x with
  | none => simp
  | some c => simpa using hg _ (alookup_mem h)

/-- Entries never drop below count 1: the decrement of line 53 is guarded by
`values.has(oldValue)` (line 52) and the zero check of lines 60–62 deletes
any entry the decrement brought to 0. -/
theorem recordChange_good {vm : ValueMap} (hg : ∀ e ∈ vm, 1 ≤ e.2)
    (oldValue newValue : Option String) :
    ∀ e ∈ recordChange vm oldValue newValue, 1 ≤ e.2 := by
  intro e he
  cases oldValue with
  | none =>
    cases newValue with
    | none => exact hg e he
    | some n =>
      simp only [recordChange] at he
      rcases mem_mapSet_strong he with rfl | ⟨hm, _⟩
      · show 1 ≤ (alookup vm n).getD 0 + 1
        have h0 : (0 : Int) ≤ (alookup vm n).getD 0 :=
          valCount_nonneg_of_good (fun e hm => le_trans (by norm_num) (hg e hm)) n
        omega
      · exact hg e hm
  | some o =>
    cases hc : alookup vm o with
    | none =>
      -- oldValue untracked: no decrement happens
      have hv2 : ∀ e ∈ (match newValue with
          | some n => mapSet vm n ((alookup vm n).getD 0 + 1)
          | none => vm), 1 ≤ e.2 := by
        cases newValue with
        | none => exact hg
        | some n =>
          intro e he
          rcases mem_mapSet_strong he with rfl | ⟨hm, _⟩
          · show 1 ≤ (alookup vm n).getD 0 + 1
            have h0 : (0 : Int) ≤ (alookup vm n).getD 0 :=
              valCount_nonneg_of_good (fun e hm => le_trans (by norm_num) (hg e hm)) n
            omega
          · exact hg e hm
      simp only [recordChange, hc] at he
      split at he
      · exact hv2 e (mem_mapDelete_strong he).1
      · exact hv2 e he
    | some c =>
      have hc1 : 1 ≤ c := by simpa using hg _ (alookup_mem hc)
      -- v1 entries: the rewritten (o, c-1) or an untouched entry of vm
      have hv1 : ∀ e ∈ mapSet vm o (c - 1), e = (o, c - 1) ∨ (e ∈ vm ∧ e.1 ≠ o) :=
        fun e he => mem_mapSet_strong he
      have hv1nn : ∀ e ∈ mapSet vm o (c - 1), 0 ≤ e.2 := by
        intro e he
        rcases hv1 e he with rfl | ⟨hm, _⟩
        · show (0 : Int) ≤ c - 1
          omega
        · exact le_trans (by norm_num) (hg e hm)
      cases newValue with
      | none =>
        simp only [recordChange, hc] at he
        rw [show alookup (mapSet vm o (c - 1)) o = some (c - 1) from by
          rw [alookup_mapSet, if_pos rfl]] at he
        by_cases hzero : c - 1 = 0
        · rw [if_pos (by rw [hzero])] at he
          have hme := mem_mapDelete_strong he
          rcases hv1 e hme.1 with rfl | ⟨hm, _⟩
          · exact absurd rfl hme.2
          · exact hg e hm
        · rw [if_neg (by simpa using hzero)] at he
          rcases hv1 e he with rfl | ⟨hm, _⟩
          · show 1 ≤ c - 1
            omega
          · exact hg e hm
      | some n =>
        simp only [recordChange, hc] at he
        -- the increment target and its new count
        set w : Int := (alookup (mapSet vm o (c - 1)) n).getD 0 with hw
        have hwnn : 0 ≤ w := valCount_nonneg_of_good hv1nn n
        have hv2 : ∀ e ∈ mapSet (mapSet vm o (c - 1)) n (w + 1),
            e = (n, w + 1) ∨ (e ∈ mapSet vm o (c - 1) ∧ e.1 ≠ n) :=
          fun e he => mem_mapSet_strong he
        split at he
        · -- the zero check fired: all o-keyed entries removed
          have hme := mem_mapDelete_strong he
          rcases hv2 e hme.1 with rfl | ⟨hm1, _⟩
          · show 1 ≤ w + 1
            omega
          · rcases hv1 e hm1 with rfl | ⟨hm, _⟩
            · exact absurd rfl hme.2
            · exact hg e hm
        · next hnz =>
          rcases hv2 e he with rfl | ⟨hm1, hne⟩
          · show 1 ≤ w + 1
            omega
          · rcases hv1 e hm1 with rfl | ⟨hm, _⟩
            · -- the surviving (o, c-1) entry: the zero check not firing forces c-1 ≠ 0
              have hno : o ≠ n := fun hh => hne (hh ▸ rfl)
              have : alookup (mapSet (mapSet vm o (c - 1)) n (w + 1)) o = some (c - 1) := by
                rw [alookup_mapSet, if_neg hno, alookup_mapSet, if_pos rfl]
              rw [this] at hnz
              show 1 ≤ c - 1
              have : c - 1 ≠ 0 := fun hh => hnz (by rw [hh])
              omega
            · exact hg e hm

end FlexLayout

namespace FlexLayout

/-- The exact count arithmetic of lines 51–62 on a well-formed update: the
count of `oldValue` (tracked, positive) drops by one, the count of
`newValue` rises by one, all others are untouched. -/
theorem recordChange_count {vm : ValueMap} (hg : ∀ e ∈ vm, 1 ≤ e.2)
    {oldValue : Option String} (newValue : Option String)
    (hold : ∀ o, oldValue = some o → 1 ≤ valCount vm o) (x : String) :
    valCount (recordChange vm oldValue newValue) x =
      valCount vm x - (if oldValue = some x then 1 else 0) +
        (if newValue = some x then 1 else 0) := by
  cases oldValue with
  | none =>
    cases newValue with
    | none => simp [recordChange]
    | some n =>
      simp only [recordChange]
      rw [show (alookup vm n).getD 0 = valCount vm n from rfl, valCount_mapSet]
      split_ifs <;> (try simp_all) <;> omega
  | some o =>
    have h1 : 1 ≤ valCount vm o := hold o rfl
    have hc0 : ∀ r : Option Int, alookup vm o = r → ∃ c, r = some c ∧ 1 ≤ c := by
      intro r hr
      cases r with
      | none =>
        exfalso
        unfold valCount at h1
        rw [hr] at h1
        simp at h1
      | some c =>
        refine ⟨c, rfl, ?_⟩
        unfold valCount at h1
        rw [hr] at h1
        simpa using h1
    rcases hc0 _ rfl with ⟨c, hc, hc1⟩
    have hvc : valCount vm o = c := by
      unfold valCount
      rw [hc]
      rfl
    cases newValue with
    | none =>
      simp only [recordChange, hc]
      rw [show alookup (mapSet vm o (c - 1)) o = some (c - 1) from by
        rw [alookup_mapSet, if_pos rfl]]
      by_cases hdel : some (c - 1) = some (0 : Int)
      · rw [if_pos hdel, valCount_mapDelete, valCount_mapSet]
        split_ifs <;> (try simp_all) <;> omega
      · rw [if_neg hdel, valCount_mapSet]
        split_ifs <;> (try simp_all) <;> omega
    | some n =>
      simp only [recordChange, hc]
      rw [show (alookup (mapSet vm o (c - 1)) n).getD 0
          = valCount (mapSet vm o (c - 1)) n from rfl]
      rw [valCount_mapSet, alookup_mapSet, alookup_mapSet, if_pos rfl]
      by_cases hon : o = n
      · rw [if_pos hon, if_pos (show n = o from hon.symm)]
        rw [if_neg (fun hh : some (c - 1 + 1) = some 0 => by
          have := Option.some_inj.mp hh
          omega)]
        rw [valCount_mapSet, valCount_mapSet]
        split_ifs <;> (try simp_all) <;> omega
      · rw [if_neg hon, if_neg (fun hh : n = o => hon hh.symm)]
        by_cases hdel : some (c - 1) = some (0 : Int)
        · rw [if_pos hdel, valCount_mapDelete, valCount_mapSet, valCount_mapSet]
          split_ifs <;> (try simp_all) <;> omega
        · rw [if_neg hdel, valCount_mapSet, valCount_mapSet]
          split_ifs <;> (try simp_all) <;> omega

end FlexLayout

namespace FlexLayout

/-! ## `_getValues` and `trackerStep` lemmas -/

theorem getValues_snd (pm : PropertyMap) (n a : String) :
    (getValues pm n a).2 = tracked pm n a := by
  simp only [getValues, tracked]
  cases h : alookup pm (trackerKey n a) <;> rfl

theorem alookup_getValues_fst (pm : PropertyMap) (n a K : String) :
    alookup (getValues pm n a).1 K =
      if K = trackerKey n a then some (tracked pm n a) else alookup pm K := by
  simp only [getValues]
  cases hh : alookup pm (trackerKey n a) with
  | some m =>
    by_cases hK : K = trackerKey n a
    · rw [if_pos hK]
      show alookup pm K = some (tracked pm n a)
      rw [hK]
      unfold tracked
      rw [hh]
      rfl
    · rw [if_neg hK]
  | none =>
    show alookup (mapSet pm (trackerKey n a) []) K = _
    rw [alookup_mapSet]
    by_cases hK : K = trackerKey n a
    · rw [if_pos hK, if_pos hK]
      unfold tracked
      rw [hh]
      rfl
    · rw [if_neg hK, if_neg hK]

theorem tracked_getValues_fst (pm : PropertyMap) (n a n' a' : String) :
    tracked (getValues pm n a).1 n' a' = tracked pm n' a' := by
  unfold tracked
  rw [alookup_getValues_fst]
  by_cases hK : trackerKey n' a' = trackerKey n a
  · rw [if_pos hK, hK]
    rfl
  · rw [if_neg hK]

theorem goodPM_getValues_fst {pm : PropertyMap} (hg : GoodPM pm) (n a : String) :
    GoodPM (getValues pm n a).1 := by
  simp only [getValues]
  cases hh : alookup pm (trackerKey n a) with
  | some m => exact hg
  | none =>
    show GoodPM (mapSet pm (trackerKey n a) [])
    intro kv hkv
    rcases mem_mapSet_strong hkv with rfl | ⟨hm, _⟩
    · intro e he
      cases he
    · exact hg kv hm

theorem tracked_good {pm : PropertyMap} (hg : GoodPM pm) (n a : String) :
    ∀ e ∈ tracked pm n a, 1 ≤ e.2 := by
  unfold tracked
  cases h : alookup pm (trackerKey n a) with
  | none =>
    intro e he
    cases he
  | some m => exact hg (trackerKey n a, m) (alookup_mem h)

theorem goodPM_trackerStep {pm : PropertyMap} (hg : GoodPM pm) (name : String)
    (oldValue newValue : Option String) :
    GoodPM (trackerStep pm name oldValue newValue) := by
  simp only [trackerStep]
  intro kv hkv
  rcases mem_mapSet_strong hkv with rfl | ⟨hm, _⟩
  · exact recordChange_good
      (fun e he => tracked_good hg (nameProp name) (nameAlias name) e
        (getValues_snd pm (nameProp name) (nameAlias name) ▸ he))
      oldValue newValue
  · exact goodPM_getValues_fst hg (nameProp name) (nameAlias name) kv hm

theorem countOf_trackerStep (pm : PropertyMap) (name : String)
    (oldValue newValue : Option String) (K x : String) :
    countOf (trackerStep pm name oldValue newValue) K x =
      if K = keyOfName name
      then valCount (recordChange (tracked pm (nameProp name) (nameAlias name))
        oldValue newValue) x
      else countOf pm K x := by
  simp only [trackerStep, countOf, keyOfName]
  rw [alookup_mapSet]
  by_cases hK : K = trackerKey (nameProp name) (nameAlias name)
  · rw [if_pos hK, if_pos hK, getValues_snd]
    rfl
  · rw [if_neg hK, if_neg hK, alookup_getValues_fst, if_neg hK]

theorem alookup_trackerStep (pm : PropertyMap) (name : String)
    (oldValue newValue : Option String) (K : String) :
    alookup (trackerStep pm name oldValue newValue) K =
      if K = keyOfName name
      then some (recordChange (tracked pm (nameProp name) (nameAlias name))
        oldValue newValue)
      else alookup pm K := by
  simp only [trackerStep, keyOfName]
  rw [alookup_mapSet]
  by_cases hK : K = trackerKey (nameProp name) (nameAlias name)
  · rw [if_pos hK, if_pos hK, getValues_snd]
  · rw [if_neg hK, if_neg hK, alookup_getValues_fst, if_neg hK]

theorem tracked_trackerStep (pm : PropertyMap) (name : String)
    (oldValue newValue : Option String) (n a : String)
    (h : trackerKey n a ≠ keyOfName name) :
    tracked (trackerStep pm name oldValue newValue) n a = tracked pm n a := by
  unfold tracked
  rw [alookup_trackerStep, if_neg h]

end FlexLayout

namespace FlexLayout

/-! ## Document-environment lemmas -/

variable {α β : Type}

theorem hasKey_false_of_alookup_none [DecidableEq α] {m : List (α × β)} {k : α}
    (h : alookup m k = none) : hasKey m k = false := by
  induction m with
  | nil => rfl
  | cons p rest ih =>
    simp only [alookup] at h
    by_cases hp : p.1 = k
    · rw [if_pos hp] at h
      cases h
    · rw [if_neg hp] at h
      simp only [hasKey, if_neg hp]
      exact ih h

theorem map_replace_id [DecidableEq α] {m : List (α × β)} {k : α} {v : β}
    (h : ∀ p ∈ m, p.1 ≠ k) : m.map (fun p => if p.1 = k then (k, v) else p) = m := by
  induction m with
  | nil => rfl
  | cons p rest ih =>
    simp only [List.map_cons]
    rw [if_neg (h p (List.mem_cons_self p rest))]
    rw [ih (fun q hq => h q (List.mem_cons_of_mem p hq))]

theorem mapSet_cons_hit [DecidableEq α] {e : α × β} {rest : List (α × β)} {k : α}
    (he : e.1 = k) (v : β) (hrest : ∀ p ∈ rest, p.1 ≠ k) :
    mapSet (e :: rest) k v = (k, v) :: rest := by
  unfold mapSet
  rw [if_pos (by simp [hasKey, he])]
  simp only [List.map_cons, if_pos he]
  rw [map_replace_id hrest]

theorem mapSet_cons_miss [DecidableEq α] {e : α × β} {rest : List (α × β)} {k : α}
    (he : ¬e.1 = k) (v : β) :
    mapSet (e :: rest) k v = e :: mapSet rest k v := by
  unfold mapSet
  have hk : hasKey (e :: rest) k = hasKey rest k := by
    simp [hasKey, he]
  rw [hk]
  by_cases hr : hasKey rest k
  · rw [if_pos hr, if_pos hr]
    simp only [List.map_cons, if_neg he]
  · rw [if_neg hr, if_neg hr]
    rfl

theorem mapDelete_id [DecidableEq α] {m : List (α × β)} {k : α}
    (h : alookup m k = none) : mapDelete m k = m := by
  induction m with
  | nil => rfl
  | cons p rest ih =>
    simp only [alookup] at h
    by_cases hp : p.1 = k
    · rw [if_pos hp] at h
      cases h
    · rw [if_neg hp] at h
      simp only [mapDelete, if_neg hp]
      rw [ih h]

theorem mapDelete_sublist [DecidableEq α] (m : List (α × β)) (k : α) :
    List.Sublist (mapDelete m k) m := by
  induction m with
  | nil => exact List.Sublist.refl []
  | cons p rest ih =>
    simp only [mapDelete]
    by_cases hp : p.1 = k
    · rw [if_pos hp]
      exact ih.cons p
    · rw [if_neg hp]
      exact ih.cons₂ p

theorem mapSet_keys [DecidableEq α] (m : List (α × β)) (k : α) (v : β) :
    (mapSet m k v).map Prod.fst =
      if hasKey m k then m.map Prod.fst else m.map Prod.fst ++ [k] := by
  unfold mapSet
  by_cases hk : hasKey m k
  · rw [if_pos hk, if_pos hk, List.map_map]
    apply List.map_congr_left
    intro p hp
    by_cases hpk : p.1 = k
    · simp [Function.comp, hpk]
    · simp [Function.comp, hpk]
  · rw [if_neg hk, if_neg hk]
    simp

theorem envNodup_mapSet {env : Env} (hnd : envNodup env) (ek : Nat × String)
    (v : String) : envNodup (mapSet env ek v) := by
  unfold envNodup at hnd ⊢
  rw [mapSet_keys]
  by_cases hk : hasKey env ek
  · rw [if_pos hk]
    exact hnd
  · rw [if_neg hk]
    have hnin : ek ∉ env.map Prod.fst := by
      intro hmem
      rcases List.mem_map.1 hmem with ⟨p, hp, hpk⟩
      exact not_key_mem_of_hasKey_false (Bool.not_eq_true _ ▸ hk) p hp hpk
    simp [List.nodup_append, hnd, hnin]

theorem envNodup_mapDelete {env : Env} (hnd : envNodup env) (ek : Nat × String) :
    envNodup (mapDelete env ek) := by
  unfold envNodup at hnd ⊢
  exact hnd.sublist ((mapDelete_sublist env ek).map Prod.fst)

theorem envNodup_envStep {env : Env} (hnd : envNodup env) (ev : AttrEvent) :
    envNodup (envStep env ev) := by
  unfold envStep
  cases ev.newVal with
  | some v => exact envNodup_mapSet hnd _ v
  | none => exact envNodup_mapDelete hnd _

theorem carrierCount_nonneg (env : Env) (K V : String) : 0 ≤ carrierCount env K V := by
  induction env with
  | nil => simp [carrierCount]
  | cons e rest ih =>
    simp only [carrierCount]
    split_ifs <;> omega

theorem carrierCount_append (a b : Env) (K V : String) :
    carrierCount (a ++ b) K V = carrierCount a K V + carrierCount b K V := by
  induction a with
  | nil => simp [carrierCount]
  | cons e rest ih =>
    simp only [List.cons_append, carrierCount, List.append_eq]
    rw [ih]
    omega

theorem alookup_some_carrier_pos {env : Env} {ek : Nat × String} {v : String}
    (h : alookup env ek = some v) : 1 ≤ carrierCount env (keyOfName ek.2) v := by
  induction env with
  | nil => cases h
  | cons e rest ih =>
    simp only [alookup] at h
    simp only [carrierCount]
    by_cases he : e.1 = ek
    · rw [if_pos he] at h
      have hv : e.2 = v := Option.some_inj.mp h
      rw [if_pos ⟨by rw [he], hv⟩]
      have := carrierCount_nonneg rest (keyOfName ek.2) v
      omega
    · rw [if_neg he] at h
      have := ih h
      split_ifs <;> omega

theorem carrier_mapSet_replace {env : Env} (hnd : envNodup env) {ek : Nat × String}
    {o : String} (h : alookup env ek = some o) (n : String) (K V : String) :
    carrierCount (mapSet env ek n) K V =
      carrierCount env K V - (if keyOfName ek.2 = K ∧ o = V then 1 else 0) +
        (if keyOfName ek.2 = K ∧ n = V then 1 else 0) := by
  induction env with
  | nil => cases h
  | cons e rest ih =>
    have hnd' : envNodup rest := by
      unfold envNodup at hnd ⊢
      simp only [List.map_cons, List.nodup_cons] at hnd
      exact hnd.2
    simp only [alookup] at h
    by_cases he : e.1 = ek
    · have hrest : ∀ p ∈ rest, p.1 ≠ ek := by
        intro p hp hpk
        unfold envNodup at hnd
        simp only [List.map_cons, List.nodup_cons] at hnd
        have hm : p.1 ∈ rest.map Prod.fst := List.mem_map_of_mem Prod.fst hp
        rw [hpk, ← he] at hm
        exact hnd.1 hm
      have ho : e.2 = o := Option.some_inj.mp (by rw [← h, if_pos he])
      rw [mapSet_cons_hit he n hrest]
      simp only [carrierCount]
      subst he
      subst ho
      split_ifs <;> omega
    · rw [if_neg he] at h
      rw [mapSet_cons_miss he n]
      simp only [carrierCount]
      rw [ih hnd' h]
      omega

theorem carrier_mapSet_append {env : Env} {ek : Nat × String}
    (h : alookup env ek = none) (n : String) (K V : String) :
    carrierCount (mapSet env ek n) K V =
      carrierCount env K V + (if keyOfName ek.2 = K ∧ n = V then 1 else 0) := by
  have hk : hasKey env ek = false := hasKey_false_of_alookup_none h
  unfold mapSet
  rw [hk]
  simp only [Bool.false_eq_true, if_false]
  rw [carrierCount_append]
  simp only [carrierCount]
  omega

theorem hasKey_false_of_not_mem [DecidableEq α] {m : List (α × β)} {k : α}
    (h : ∀ p ∈ m, p.1 ≠ k) : hasKey m k = false := by
  induction m with
  | nil => rfl
  | cons p rest ih =>
    simp only [hasKey]
    rw [if_neg (h p (List.mem_cons_self p rest))]
    exact ih (fun q hq => h q (List.mem_cons_of_mem p hq))

theorem carrier_mapDelete_some {env : Env} (hnd : envNodup env) {ek : Nat × String}
    {o : String} (h : alookup env ek = some o) (K V : String) :
    carrierCount (mapDelete env ek) K V =
      carrierCount env K V - (if keyOfName ek.2 = K ∧ o = V then 1 else 0) := by
  induction env with
  | nil => cases h
  | cons e rest ih =>
    have hnd' : envNodup rest := by
      unfold envNodup at hnd ⊢
      simp only [List.map_cons, List.nodup_cons] at hnd
      exact hnd.2
    simp only [alookup] at h
    simp only [mapDelete]
    by_cases he : e.1 = ek
    · have hrest : ∀ p ∈ rest, p.1 ≠ ek := by
        intro p hp hpk
        unfold envNodup at hnd
        simp only [List.map_cons, List.nodup_cons] at hnd
        have hm : p.1 ∈ rest.map Prod.fst := List.mem_map_of_mem Prod.fst hp
        rw [hpk, ← he] at hm
        exact hnd.1 hm
      have ho : e.2 = o := Option.some_inj.mp (by rw [← h, if_pos he])
      rw [if_pos he,
        mapDelete_id (alookup_eq_none_of_hasKey_false (hasKey_false_of_not_mem hrest))]
      simp only [carrierCount]
      subst he
      subst ho
      split_ifs <;> omega
    · rw [if_neg he] at h
      rw [if_neg he]
      simp only [carrierCount]
      rw [ih hnd' h]
      omega

/-- The document-side effect of one well-formed event on the carrier count. -/
theorem carrier_envStep {env : Env} (hnd : envNodup env) {ev : AttrEvent}
    (hwf : alookup env (ev.elem, ev.attrName) = ev.oldVal) (K V : String) :
    carrierCount (envStep env ev) K V =
      carrierCount env K V -
        (if keyOfName ev.attrName = K ∧ ev.oldVal = some V then 1 else 0) +
        (if keyOfName ev.attrName = K ∧ ev.newVal = some V then 1 else 0) := by
  unfold envStep
  cases hn : ev.newVal with
  | some n =>
    cases ho : ev.oldVal with
    | some o =>
      rw [ho] at hwf
      rw [carrier_mapSet_replace hnd hwf n K V]
      simp only [Option.some.injEq]
    | none =>
      rw [ho] at hwf
      rw [carrier_mapSet_append hwf n K V]
      rw [if_neg (fun hc : keyOfName ev.attrName = K ∧ (none : Option String) = some V =>
        Option.noConfusion hc.2)]
      simp only [Option.some.injEq]
      omega
  | none =>
    cases ho : ev.oldVal with
    | some o =>
      rw [ho] at hwf
      rw [carrier_mapDelete_some hnd hwf K V]
      rw [if_neg (fun hc : keyOfName ev.attrName = K ∧ (none : Option String) = some V =>
        Option.noConfusion hc.2)]
      simp only [Option.some.injEq]
      omega
    | none =>
      rw [ho] at hwf
      rw [if_neg (fun hc : keyOfName ev.attrName = K ∧ (none : Option String) = some V =>
        Option.noConfusion hc.2)]
      show carrierCount (mapDelete env (ev.elem, ev.attrName)) K V =
        carrierCount env K V - 0 + 0
      rw [mapDelete_id hwf]
      omega

end FlexLayout

namespace FlexLayout

/-! ## The tracker/document correspondence -/

/-- One well-formed event keeps stored counts equal to carrier counts. -/
theorem trackInv_step {pm : PropertyMap} {env : Env} {ev : AttrEvent}
    (hg : GoodPM pm) (hnd : envNodup env)
    (hcnt : ∀ K V, countOf pm K V = carrierCount env K V)
    (hwf : alookup env (ev.elem, ev.attrName) = ev.oldVal) :
    ∀ K V, countOf (trackerStep pm ev.attrName ev.oldVal ev.newVal) K V =
      carrierCount (envStep env ev) K V := by
  intro K V
  rw [countOf_trackerStep, carrier_envStep hnd hwf K V]
  have htrg : ∀ e ∈ tracked pm (nameProp ev.attrName) (nameAlias ev.attrName), 1 ≤ e.2 :=
    tracked_good hg _ _
  have hvt : ∀ x, valCount (tracked pm (nameProp ev.attrName) (nameAlias ev.attrName)) x
      = countOf pm (keyOfName ev.attrName) x := fun x => rfl
  by_cases hK : K = keyOfName ev.attrName
  · subst hK
    rw [if_pos rfl]
    have hold : ∀ o, ev.oldVal = some o →
        1 ≤ valCount (tracked pm (nameProp ev.attrName) (nameAlias ev.attrName)) o := by
      intro o ho
      rw [hvt, hcnt]
      exact alookup_some_carrier_pos (ho ▸ hwf)
    rw [recordChange_count htrg ev.newVal hold V, hvt, hcnt]
    simp only [eq_self_iff_true, true_and]
  · rw [if_neg hK, hcnt]
    have hKc : ¬keyOfName ev.attrName = K := fun hh => hK hh.symm
    rw [if_neg (fun hc : keyOfName ev.attrName = K ∧ ev.oldVal = some V => hKc hc.1),
      if_neg (fun hc : keyOfName ev.attrName = K ∧ ev.newVal = some V => hKc hc.1)]
    omega

/-- The correspondence holds after any well-formed trace. -/
theorem trackInv_run : ∀ (evs : List AttrEvent) (pm : PropertyMap) (env : Env),
    GoodPM pm → envNodup env →
    (∀ K V, countOf pm K V = carrierCount env K V) →
    wellFormedB env evs = true →
    ∀ K V, countOf (runTracker pm evs) K V = carrierCount (envRun env evs) K V := by
  intro evs
  induction evs with
  | nil =>
    intro pm env hg hnd hcnt hwf K V
    exact hcnt K V
  | cons ev rest ih =>
    intro pm env hg hnd hcnt hwf K V
    simp only [wellFormedB, Bool.and_eq_true, decide_eq_true_eq] at hwf
    simp only [runTracker, envRun]
    exact ih _ _ (goodPM_trackerStep hg _ _ _) (envNodup_envStep hnd ev)
      (trackInv_step hg hnd hcnt hwf.1) hwf.2 K V

theorem goodPM_runTracker : ∀ (evs : List AttrEvent) (pm : PropertyMap),
    GoodPM pm → GoodPM (runTracker pm evs) := by
  intro evs
  induction evs with
  | nil => exact fun pm hg => hg
  | cons ev rest ih =>
    intro pm hg
    simp only [runTracker]
    exact ih _ (goodPM_trackerStep hg _ _ _)

/-! ## Claim theorems C1 and C2 -/

/-- C2 — Tracker count sanity under arbitrary (including malformed) input:
after any sequence of calls to `attributeChangedCallback` (each call's
tracker effect is `trackerStep`, lines 43–44 and 51–62; the remaining lines
never modify a stored count), every entry remaining in every per-(property,
alias) value map of `_propertyMap` has a count of at least 1: no zero entry
persists and no count ever becomes negative. -/
theorem c2_no_zero_or_negative_counts (evs : List AttrEvent) :
    GoodPM (runTracker [] evs) :=
  goodPM_runTracker evs [] (fun kv hkv => (List.not_mem_nil kv hkv).elim)

/-- C1 as literally stated is false: two well-formed events for the
distinct (property, alias) pairs `("a.b", "")` and `("a", "b")` (attribute
names `"a.b"` and `"a-b"`) are filed under the *same* tracker key `"a.b"`
(line 214), so the stored count 2 exceeds the one element that actually
carries property `"a.b"` at alias `""` with value `"v"`. -/
theorem c1_claim_counterexample : ¬refcountClaimPA := by
  intro h
  exact absurd (h cexTrace (by decide) "a.b" "" "v") (by decide)

/-- C1 (amended) — Reference-count correctness of the value tracker, stated
per tracker key: for every well-formed event trace, the count stored for
value `V` under tracker key `K` equals the number of attributes currently in
the document whose name is filed under `K` (same `"<property>.<alias>"` key,
line 214) and whose value is `V`.  When no two distinct (property, alias)
pairs of the trace share a key, this is exactly the per-(property, alias)
claim. -/
theorem c1_refcount_by_key (evs : List AttrEvent)
    (hwf : wellFormedB [] evs = true) (K V : String) :
    countOf (runTracker [] evs) K V = carrierCount (envRun [] evs) K V :=
  trackInv_run evs [] [] (fun kv hkv => (List.not_mem_nil kv hkv).elim)
    List.nodup_nil (fun _ _ => rfl) hwf K V

/-- Witness for `c1_refcount_by_key` at the concrete trace `cexTrace`. -/
theorem c1_refcount_by_key_witness :
    wellFormedB [] cexTrace = true ∧
      countOf (runTracker [] cexTrace) "a.b" "v" =
        carrierCount (envRun [] cexTrace) "a.b" "v" :=
  ⟨by decide, c1_refcount_by_key cexTrace (by decide) "a.b" "v"⟩

end FlexLayout

namespace FlexLayout

/-! ## `_buildCss` structure lemmas -/

theorem hostBucket_assemble (b : CssBuckets) : hostBucket (assembleCss b) = b.host := rfl

theorem allChildBucket_assemble (b : CssBuckets) :
    allChildBucket (assembleCss b) = b.allChild := rfl

theorem injectDisplay_host (b : CssBuckets) (inline : Bool) (lt : String) (ad : Bool) :
    (injectDisplay b inline lt ad).host =
      if b.host.length != 0 || ad then mapSet b.host "display" (displayValue inline lt)
      else b.host := by
  simp only [injectDisplay]
  split <;> rfl

theorem injectDisplay_allChild (b : CssBuckets) (inline : Bool) (lt : String) (ad : Bool) :
    (injectDisplay b inline lt ad).allChild = b.allChild := by
  simp only [injectDisplay]
  split <;> rfl

theorem injectDisplay_extra (b : CssBuckets) (inline : Bool) (lt : String) (ad : Bool) :
    (injectDisplay b inline lt ad).extra = b.extra := by
  simp only [injectDisplay]
  split <;> rfl

theorem tracked_hostStep (a : String) (acc : PropertyMap × CssBuckets) (p : Property)
    (n' a' : String) : tracked (hostStep a acc p).1 n' a' = tracked acc.1 n' a' := by
  simp only [hostStep]
  cases h : (getValues acc.1 p.name a).2 with
  | nil => exact tracked_getValues_fst acc.1 p.name a n' a'
  | cons hd tl =>
    cases hd
    exact tracked_getValues_fst acc.1 p.name a n' a'

theorem tracked_childStep (a : String) (acc : PropertyMap × CssBuckets) (p : Property)
    (n' a' : String) : tracked (childStep a acc p).1 n' a' = tracked acc.1 n' a' :=
  tracked_getValues_fst acc.1 p.name a n' a'

theorem tracked_hostLoop (a : String) : ∀ (ps : List Property)
    (acc : PropertyMap × CssBuckets) (n' a' : String),
    tracked (ps.foldl (hostStep a) acc).1 n' a' = tracked acc.1 n' a' := by
  intro ps
  induction ps with
  | nil => intro acc n' a'; rfl
  | cons p rest ih =>
    intro acc n' a'
    simp only [List.foldl_cons]
    rw [ih (hostStep a acc p) n' a', tracked_hostStep]

theorem tracked_childLoop (a : String) : ∀ (ps : List Property)
    (acc : PropertyMap × CssBuckets) (n' a' : String),
    tracked (ps.foldl (childStep a) acc).1 n' a' = tracked acc.1 n' a' := by
  intro ps
  induction ps with
  | nil => intro acc n' a'; rfl
  | cons p rest ih =>
    intro acc n' a'
    simp only [List.foldl_cons]
    rw [ih (childStep a acc p) n' a', tracked_childStep]

theorem tracked_buildCssLoops (pm : PropertyMap) (a : String) (props : List Property)
    (n' a' : String) : tracked (buildCssLoops pm a props).1 n' a' = tracked pm n' a' := by
  simp only [buildCssLoops]
  rw [tracked_childLoop, tracked_hostLoop]

theorem tracked_buildCssCore (pm : PropertyMap) (a : String) (props : List Property)
    (inline : Bool) (lt : String) (ad : Bool) (n' a' : String) :
    tracked (buildCssCore pm a props inline lt ad).1 n' a' = tracked pm n' a' := by
  simp only [buildCssCore]
  exact tracked_buildCssLoops pm a props n' a'

theorem hostStep_snd_congr (a : String) (acc1 acc2 : PropertyMap × CssBuckets)
    (p : Property) (hb : acc1.2 = acc2.2)
    (h : tracked acc1.1 p.name a = tracked acc2.1 p.name a) :
    (hostStep a acc1 p).2 = (hostStep a acc2 p).2 := by
  simp only [hostStep]
  rw [getValues_snd, getValues_snd, h, hb]
  cases htr : tracked acc2.1 p.name a with
  | nil => rfl
  | cons hd tl =>
    cases hd
    rfl

theorem childStep_snd_congr (a : String) (acc1 acc2 : PropertyMap × CssBuckets)
    (p : Property) (hb : acc1.2 = acc2.2)
    (h : tracked acc1.1 p.name a = tracked acc2.1 p.name a) :
    (childStep a acc1 p).2 = (childStep a acc2 p).2 := by
  simp only [childStep]
  rw [getValues_snd, getValues_snd, h, hb]

theorem hostLoop_snd_congr (a : String) : ∀ (ps : List Property)
    (acc1 acc2 : PropertyMap × CssBuckets), acc1.2 = acc2.2 →
    (∀ p ∈ ps, tracked acc1.1 p.name a = tracked acc2.1 p.name a) →
    (ps.foldl (hostStep a) acc1).2 = (ps.foldl (hostStep a) acc2).2 := by
  intro ps
  induction ps with
  | nil =>
    intro acc1 acc2 hb h
    exact hb
  | cons p rest ih =>
    intro acc1 acc2 hb h
    simp only [List.foldl_cons]
    exact ih (hostStep a acc1 p) (hostStep a acc2 p)
      (hostStep_snd_congr a acc1 acc2 p hb (h p (List.mem_cons_self p rest)))
      (fun q hq => by
        rw [tracked_hostStep, tracked_hostStep]
        exact h q (List.mem_cons_of_mem p hq))

theorem childLoop_snd_congr (a : String) : ∀ (ps : List Property)
    (acc1 acc2 : PropertyMap × CssBuckets), acc1.2 = acc2.2 →
    (∀ p ∈ ps, tracked acc1.1 p.name a = tracked acc2.1 p.name a) →
    (ps.foldl (childStep a) acc1).2 = (ps.foldl (childStep a) acc2).2 := by
  intro ps
  induction ps with
  | nil =>
    intro acc1 acc2 hb h
    exact hb
  | cons p rest ih =>
    intro acc1 acc2 hb h
    simp only [List.foldl_cons]
    exact ih (childStep a acc1 p) (childStep a acc2 p)
      (childStep_snd_congr a acc1 acc2 p hb (h p (List.mem_cons_self p rest)))
      (fun q hq => by
        rw [tracked_childStep, tracked_childStep]
        exact h q (List.mem_cons_of_mem p hq))

theorem buildCssLoops_snd_congr (a : String) (props : List Property)
    {pm1 pm2 : PropertyMap}
    (h : ∀ p ∈ props, tracked pm1 p.name a = tracked pm2 p.name a) :
    (buildCssLoops pm1 a props).2 = (buildCssLoops pm2 a props).2 := by
  simp only [buildCssLoops]
  apply childLoop_snd_congr
  · apply hostLoop_snd_congr
    · rfl
    · intro p hp
      exact h p (List.mem_of_mem_filter hp)
  · intro p hp
    rw [tracked_hostLoop, tracked_hostLoop]
    exact h p (List.mem_of_mem_filter hp)

theorem buildCssCore_snd_congr (a : String) (props : List Property) (inline : Bool)
    (lt : String) (ad : Bool) {pm1 pm2 : PropertyMap}
    (h : ∀ p ∈ props, tracked pm1 p.name a = tracked pm2 p.name a) :
    (buildCssCore pm1 a props inline lt ad).2 = (buildCssCore pm2 a props inline lt ad).2 := by
  simp only [buildCssCore]
  rw [buildCssLoops_snd_congr a props h]

/-! ## Claim theorems C9 and C3 -/

/-- C9 — Idempotent re-synthesis: the update functions of the embedding are
pure by construction, and re-running `_buildCss` on the `_propertyMap` that
the first run returned (which may have gained lazily created *empty* maps
through `_getValues`, line 218) synthesizes byte-identical CSS text. -/
theorem c9_idempotent_resynthesis (pm : PropertyMap) (a : String)
    (props : List Property) (inline : Bool) (lt : String) (ad : Bool) :
    unwrapCss (buildCssCore (buildCssCore pm a props inline lt ad).1
        a props inline lt ad).2 =
      unwrapCss (buildCssCore pm a props inline lt ad).2 := by
  rw [buildCssCore_snd_congr a props inline lt ad
    (fun p _ => tracked_buildCssCore pm a props inline lt ad p.name a)]

/-- C3 — Default display injection: the `:host` bucket of the object built
by `_buildCss` carries a `display` declaration exactly when the bucket was
non-empty after the host-scoped loop or `applyDefaults` is set, and then its
value is `inline-<layoutType>` when the inline flag is set, else
`<layoutType>` (lines 192–195). -/
theorem c3_display_injection (pm : PropertyMap) (a : String) (props : List Property)
    (inline : Bool) (lt : String) (ad : Bool) :
    alookup (hostBucket (buildCssCore pm a props inline lt ad).2) "display" =
      if (buildCssLoops pm a props).2.host ≠ [] ∨ ad = true
      then some (displayValue inline lt)
      else none := by
  simp only [buildCssCore]
  rw [hostBucket_assemble, injectDisplay_host]
  by_cases hcond : (buildCssLoops pm a props).2.host ≠ [] ∨ ad = true
  · rw [if_pos hcond]
    have hbool : ((buildCssLoops pm a props).2.host.length != 0 || ad) = true := by
      rcases hcond with hne | had
      · have : (buildCssLoops pm a props).2.host.length ≠ 0 := by
          intro hlen
          exact hne (List.length_eq_zero.mp hlen)
        simp [this]
      · simp [had]
    rw [hbool]
    simp only [if_true]
    rw [alookup_mapSet, if_pos rfl]
  · rw [if_neg hcond]
    push_neg at hcond
    have hnil : (buildCssLoops pm a props).2.host = [] := hcond.1
    have had : ad = false := by
      cases ad with
      | false => rfl
      | true => exact absurd rfl hcond.2
    rw [hnil, had]
    rfl

end FlexLayout

namespace FlexLayout

/-! ## Host-scoped tie-break (C7) -/

theorem hostStep_snd_congr_head (a : String) (acc1 acc2 : PropertyMap × CssBuckets)
    (p : Property) (hb : acc1.2 = acc2.2)
    (h : (tracked acc1.1 p.name a).head?.map Prod.fst
      = (tracked acc2.1 p.name a).head?.map Prod.fst) :
    (hostStep a acc1 p).2 = (hostStep a acc2 p).2 := by
  simp only [hostStep]
  rw [getValues_snd, getValues_snd, hb]
  cases h1 : tracked acc1.1 p.name a with
  | nil =>
    cases h2 : tracked acc2.1 p.name a with
    | nil => rfl
    | cons hd tl =>
      rw [h1, h2] at h
      simp at h
  | cons hd tl =>
    cases h2 : tracked acc2.1 p.name a with
    | nil =>
      rw [h1, h2] at h
      simp at h
    | cons hd2 tl2 =>
      rw [h1, h2] at h
      cases hd with
      | mk v1 c1 =>
        cases hd2 with
        | mk v2 c2 =>
          have hv : v1 = v2 := by simpa using h
          rw [hv]

theorem childStep_host (a : String) (acc : PropertyMap × CssBuckets) (p : Property) :
    (childStep a acc p).2.host = acc.2.host := by
  simp only [childStep]
  have hgen : ∀ (vm : ValueMap) (bb : CssBuckets),
      (vm.foldl (fun (bb : CssBuckets) kv =>
        { bb with
          extra := mapSet bb.extra (childSelector p.name a kv.1)
            (p.updateFn kv.1 a).1 }) bb).host = bb.host := by
    intro vm
    induction vm with
    | nil => intro bb; rfl
    | cons kv rest ih =>
      intro bb
      simp only [List.foldl_cons]
      rw [ih]
  exact hgen _ acc.2

theorem childStep_allChild (a : String) (acc : PropertyMap × CssBuckets) (p : Property) :
    (childStep a acc p).2.allChild = acc.2.allChild := by
  simp only [childStep]
  have hgen : ∀ (vm : ValueMap) (bb : CssBuckets),
      (vm.foldl (fun (bb : CssBuckets) kv =>
        { bb with
          extra := mapSet bb.extra (childSelector p.name a kv.1)
            (p.updateFn kv.1 a).1 }) bb).allChild = bb.allChild := by
    intro vm
    induction vm with
    | nil => intro bb; rfl
    | cons kv rest ih =>
      intro bb
      simp only [List.foldl_cons]
      rw [ih]
  exact hgen _ acc.2

theorem childLoop_host (a : String) : ∀ (ps : List Property)
    (acc : PropertyMap × CssBuckets),
    (ps.foldl (childStep a) acc).2.host = acc.2.host := by
  intro ps
  induction ps with
  | nil => intro acc; rfl
  | cons p rest ih =>
    intro acc
    simp only [List.foldl_cons]
    rw [ih, childStep_host]

theorem childLoop_allChild (a : String) : ∀ (ps : List Property)
    (acc : PropertyMap × CssBuckets),
    (ps.foldl (childStep a) acc).2.allChild = acc.2.allChild := by
  intro ps
  induction ps with
  | nil => intro acc; rfl
  | cons p rest ih =>
    intro acc
    simp only [List.foldl_cons]
    rw [ih, childStep_allChild]

theorem hostLoop_snd_congr_head (a : String) : ∀ (ps : List Property)
    (acc1 acc2 : PropertyMap × CssBuckets), acc1.2 = acc2.2 →
    (∀ p ∈ ps, (tracked acc1.1 p.name a).head?.map Prod.fst
      = (tracked acc2.1 p.name a).head?.map Prod.fst) →
    (ps.foldl (hostStep a) acc1).2 = (ps.foldl (hostStep a) acc2).2 := by
  intro ps
  induction ps with
  | nil =>
    intro acc1 acc2 hb h
    exact hb
  | cons p rest ih =>
    intro acc1 acc2 hb h
    simp only [List.foldl_cons]
    exact ih (hostStep a acc1 p) (hostStep a acc2 p)
      (hostStep_snd_congr_head a acc1 acc2 p hb (h p (List.mem_cons_self p rest)))
      (fun q hq => by
        rw [tracked_hostStep, tracked_hostStep]
        exact h q (List.mem_cons_of_mem p hq))

/-- C7 — Host-scoped tie-break policy: the `:host` and `:host>*` buckets
built by `_buildCss` depend only on the value at iteration position 0 of
each host-scoped property's tracked-value map
(`const [[value]] = Array.from(values)`, line 171, with the empty map
skipped by line 167): any two tracker states agreeing on those first values
— regardless of any other tracked values, including more recently set ones —
synthesize identical host CSS. -/
theorem c7_host_first_value_wins (a : String) (props : List Property) (inline : Bool)
    (lt : String) (ad : Bool) (pm1 pm2 : PropertyMap)
    (h : ∀ p ∈ props, p.child = false →
      firstValue (tracked pm1 p.name a) = firstValue (tracked pm2 p.name a)) :
    hostBucket (buildCssCore pm1 a props inline lt ad).2
        = hostBucket (buildCssCore pm2 a props inline lt ad).2 ∧
      allChildBucket (buildCssCore pm1 a props inline lt ad).2
        = allChildBucket (buildCssCore pm2 a props inline lt ad).2 := by
  have hloop : ((props.filter (fun p => !p.child)).foldl (hostStep a)
        (pm1, (⟨[], [], []⟩ : CssBuckets))).2
      = ((props.filter (fun p => !p.child)).foldl (hostStep a)
        (pm2, (⟨[], [], []⟩ : CssBuckets))).2 := by
    apply hostLoop_snd_congr_head a
    · rfl
    · intro p hp
      have hmem := List.mem_filter.1 hp
      exact h p hmem.1 (by simpa using hmem.2)
  have hhost : (buildCssLoops pm1 a props).2.host = (buildCssLoops pm2 a props).2.host := by
    simp only [buildCssLoops]
    rw [childLoop_host, childLoop_host, hloop]
  have hall : (buildCssLoops pm1 a props).2.allChild
      = (buildCssLoops pm2 a props).2.allChild := by
    simp only [buildCssLoops]
    rw [childLoop_allChild, childLoop_allChild, hloop]
  constructor
  · simp only [buildCssCore]
    rw [hostBucket_assemble, hostBucket_assemble, injectDisplay_host, injectDisplay_host,
      hhost]
  · simp only [buildCssCore]
    rw [allChildBucket_assemble, allChildBucket_assemble, injectDisplay_allChild,
      injectDisplay_allChild, hall]

/-- Witness for `c7_host_first_value_wins`: the tracker states
`[("justify", [("start", 1), ("end", 5)])]` and `[("justify", [("start", 7)])]`
share only the first-inserted value `"start"`, and synthesize the same host
CSS — the later-set value `"end"` is ignored. -/
theorem c7_host_first_value_wins_witness :
    (∀ p ∈ [justifyProp], p.child = false →
      firstValue (tracked [("justify", [("start", 1), ("end", 5)])] p.name "") =
        firstValue (tracked [("justify", [("start", 7)])] p.name "")) ∧
    hostBucket (buildCssCore [("justify", [("start", 1), ("end", 5)])] ""
        [justifyProp] false "flex" false).2
      = hostBucket (buildCssCore [("justify", [("start", 7)])] ""
        [justifyProp] false "flex" false).2 :=
  ⟨by decide, (c7_host_first_value_wins "" [justifyProp] false "flex" false
    [("justify", [("start", 1), ("end", 5)])] [("justify", [("start", 7)])]
    (by decide)).1⟩

end FlexLayout

namespace FlexLayout

/-! ## `::slotted` rule emission (C6) -/

theorem childSelector_length (n a v : String) : 16 ≤ (childSelector n a v).length := by
  simp only [childSelector]
  have l1 : ("::slotted([" : String).length = 11 := rfl
  have l2 : ("=\"" : String).length = 2 := rfl
  have l3 : ("\"])" : String).length = 3 := rfl
  by_cases ha : a = ""
  · rw [if_pos ha, String.length_append, String.length_append, String.length_append,
      String.length_append, l1, l2, l3]
    omega
  · rw [if_neg ha, String.length_append, String.length_append, String.length_append,
      String.length_append, l1, l2, l3]
    omega

theorem host_ne_childSelector (n a v : String) : ":host" ≠ childSelector n a v := by
  intro h
  have hlen := congrArg String.length h
  have h5 : (":host" : String).length = 5 := rfl
  rw [h5] at hlen
  have := childSelector_length n a v
  omega

theorem allChildKey_ne_childSelector (n a v : String) : ":host>*" ≠ childSelector n a v := by
  intro h
  have hlen := congrArg String.length h
  have h7 : (":host>*" : String).length = 7 := rfl
  rw [h7] at hlen
  have := childSelector_length n a v
  omega

theorem alookup_of_mem_nodup {l : List (String × Decls)}
    (hnd : (l.map Prod.fst).Nodup) {k : String} {v : Decls} (hm : (k, v) ∈ l) :
    alookup l k = some v := by
  induction l with
  | nil => cases hm
  | cons p rest ih =>
    simp only [List.map_cons, List.nodup_cons] at hnd
    simp only [alookup]
    rcases List.mem_cons.1 hm with rfl | hmr
    · rw [if_pos rfl]
    · by_cases hp : p.1 = k
      · exfalso
        apply hnd.1
        rw [hp]
        exact List.mem_map_of_mem Prod.fst hmr
      · rw [if_neg hp]
        exact ih hnd.2 hmr

theorem foldl_mapSet_fresh {γ : Type} (key : γ → String) (val : γ → Decls) :
    ∀ (xs : List γ) (E : CssObj),
    ((E.map Prod.fst) ++ xs.map key).Nodup →
    xs.foldl (fun acc x => mapSet acc (key x) (val x)) E
      = E ++ xs.map (fun x => (key x, val x)) := by
  intro xs
  induction xs with
  | nil =>
    intro E h
    simp
  | cons x rest ih =>
    intro E h
    simp only [List.foldl_cons]
    have hfresh : key x ∉ E.map Prod.fst := by
      intro hmem
      simp only [List.map_cons] at h
      exact (List.nodup_append.1 h).2.2 hmem (List.mem_cons_self _ _)
    have hstep : mapSet E (key x) (val x) = E ++ [(key x, val x)] := by
      unfold mapSet
      rw [hasKey_false_of_not_mem
        (fun p hp hpk => hfresh (by
          rw [← hpk]
          exact List.mem_map_of_mem Prod.fst hp))]
      simp only [Bool.false_eq_true, if_false]
    rw [hstep, ih (E ++ [(key x, val x)]) (by
      simp only [List.map_append, List.map_cons, List.map_nil] at h ⊢
      rw [List.append_assoc]
      simpa using h)]
    rw [List.append_assoc]
    rfl

theorem childStep_extra (a : String) (acc : PropertyMap × CssBuckets) (p : Property)
    (h : ((acc.2.extra.map Prod.fst) ++ (tracked acc.1 p.name a).map
      (fun kv => childSelector p.name a kv.1)).Nodup) :
    (childStep a acc p).2.extra = acc.2.extra ++ (tracked acc.1 p.name a).map
      (fun kv => (childSelector p.name a kv.1, (p.updateFn kv.1 a).1)) := by
  simp only [childStep]
  rw [getValues_snd]
  have hproj : ∀ (vm : ValueMap) (bb : CssBuckets),
      (vm.foldl (fun (bb : CssBuckets) kv =>
        { bb with
          extra := mapSet bb.extra (childSelector p.name a kv.1)
            (p.updateFn kv.1 a).1 }) bb).extra
      = vm.foldl (fun E kv => mapSet E (childSelector p.name a kv.1)
          (p.updateFn kv.1 a).1) bb.extra := by
    intro vm
    induction vm with
    | nil => intro bb; rfl
    | cons kv rest ih =>
      intro bb
      simp only [List.foldl_cons]
      rw [ih]
  rw [hproj]
  exact foldl_mapSet_fresh (fun kv => childSelector p.name a kv.1)
    (fun kv => (p.updateFn kv.1 a).1) (tracked acc.1 p.name a) acc.2.extra h

theorem childLoop_extra (a : String) (pm0 : PropertyMap) : ∀ (ps : List Property)
    (acc : PropertyMap × CssBuckets),
    (∀ n' a', tracked acc.1 n' a' = tracked pm0 n' a') →
    ((acc.2.extra.map Prod.fst) ++ ps.flatMap (fun p => (tracked pm0 p.name a).map
      (fun kv => childSelector p.name a kv.1))).Nodup →
    ((ps.foldl (childStep a) acc).2).extra
      = acc.2.extra ++ ps.flatMap (fun p => (tracked pm0 p.name a).map
          (fun kv => (childSelector p.name a kv.1, (p.updateFn kv.1 a).1))) := by
  intro ps
  induction ps with
  | nil =>
    intro acc htr h
    simp
  | cons p rest ih =>
    intro acc htr h
    simp only [List.foldl_cons, List.flatMap_cons]
    have hstep : (childStep a acc p).2.extra
        = acc.2.extra ++ (tracked pm0 p.name a).map
          (fun kv => (childSelector p.name a kv.1, (p.updateFn kv.1 a).1)) := by
      rw [← htr p.name a]
      apply childStep_extra
      rw [htr p.name a]
      simp only [List.flatMap_cons] at h
      exact (List.nodup_append.1 (by
        rw [← List.append_assoc] at h
        exact h)).1
    rw [ih (childStep a acc p)
      (fun n' a' => by rw [tracked_childStep, htr])
      (by
        rw [hstep, List.map_append]
        have hkeys : ((tracked pm0 p.name a).map
            (fun kv => (childSelector p.name a kv.1, (p.updateFn kv.1 a).1))).map Prod.fst
            = (tracked pm0 p.name a).map (fun kv => childSelector p.name a kv.1) := by
          rw [List.map_map]
          rfl
        rw [hkeys, List.append_assoc]
        simpa using h)]
    rw [hstep, List.append_assoc]

end FlexLayout

namespace FlexLayout

theorem hostStep_extra (a : String) (acc : PropertyMap × CssBuckets) (p : Property) :
    (hostStep a acc p).2.extra = acc.2.extra := by
  simp only [hostStep]
  cases h : (getValues acc.1 p.name a).2 with
  | nil => rfl
  | cons hd tl =>
    cases hd
    rfl

theorem hostLoop_extra (a : String) : ∀ (ps : List Property)
    (acc : PropertyMap × CssBuckets),
    ((ps.foldl (hostStep a) acc).2).extra = acc.2.extra := by
  intro ps
  induction ps with
  | nil => intro acc; rfl
  | cons p rest ih =>
    intro acc
    simp only [List.foldl_cons]
    rw [ih, hostStep_extra]

theorem map_fst_rules (a : String) (pm : PropertyMap) : ∀ (ps : List Property),
    (ps.flatMap (fun p => (tracked pm p.name a).map
      (fun kv => (childSelector p.name a kv.1, (p.updateFn kv.1 a).1)))).map Prod.fst
    = ps.flatMap (fun p => (tracked pm p.name a).map
        (fun kv => childSelector p.name a kv.1)) := by
  intro ps
  induction ps with
  | nil => rfl
  | cons p rest ih =>
    simp only [List.flatMap_cons, List.map_append, ih, List.map_map]
    rfl

theorem buildCssLoops_extra (pm : PropertyMap) (a : String) (props : List Property)
    (hnd : (selectorsOf pm a props).Nodup) :
    (buildCssLoops pm a props).2.extra
      = (props.filter (fun p => p.child)).flatMap (fun p => (tracked pm p.name a).map
          (fun kv => (childSelector p.name a kv.1, (p.updateFn kv.1 a).1))) := by
  simp only [buildCssLoops]
  rw [childLoop_extra a pm (props.filter (fun p => p.child))
    ((props.filter (fun p => !p.child)).foldl (hostStep a)
      (pm, (⟨[], [], []⟩ : CssBuckets)))
    (fun n' a' => tracked_hostLoop a _ _ n' a')
    (by
      rw [hostLoop_extra]
      exact hnd)]
  rw [hostLoop_extra]
  rfl

/-- C6 — Child variant coexistence: for every child-scoped property in the
active list and every distinct tracked value, `_buildCss` emits the rule
`::slotted([<name>-<alias>="<value>"])` (bare `<name>` for the empty alias)
mapped to the declarations `updateFn` produces for that value (lines
181–190), so n distinct tracked values yield n distinct attribute-selector
rules in the same CSS object (its size is 2 reserved keys plus one per
selector).  The hypothesis that all emitted selectors are pairwise distinct
rules out collisions from unescaped `"` characters in values — the
documented caller obligation. -/
theorem c6_child_variant_coexistence (pm : PropertyMap) (a : String)
    (props : List Property) (inline : Bool) (lt : String) (ad : Bool)
    (hnd : (selectorsOf pm a props).Nodup) :
    (∀ p ∈ props, p.child = true → ∀ kv ∈ tracked pm p.name a,
      alookup (buildCssCore pm a props inline lt ad).2 (childSelector p.name a kv.1)
        = some (p.updateFn kv.1 a).1) ∧
    (buildCssCore pm a props inline lt ad).2.length
      = 2 + (selectorsOf pm a props).length := by
  have hextra := buildCssLoops_extra pm a props hnd
  constructor
  · intro p hp hchild kv hkv
    simp only [buildCssCore, assembleCss, alookup]
    rw [if_neg (host_ne_childSelector p.name a kv.1),
      if_neg (allChildKey_ne_childSelector p.name a kv.1)]
    rw [injectDisplay_extra, hextra]
    apply alookup_of_mem_nodup
    · rw [map_fst_rules]
      exact hnd
    · exact List.mem_flatMap.mpr
        ⟨p, List.mem_filter.mpr ⟨hp, by simp [hchild]⟩,
          List.mem_map_of_mem _ hkv⟩
  · simp only [buildCssCore, assembleCss, List.length_cons]
    rw [injectDisplay_extra, hextra]
    have := congrArg List.length (map_fst_rules a pm (props.filter (fun p => p.child)))
    rw [List.length_map] at this
    rw [this]
    unfold selectorsOf
    omega

/-- Witness for `c6_child_variant_coexistence`: two children with
`variant="a"` and `variant="b"` produce two distinct `::slotted` rules. -/
theorem c6_child_variant_coexistence_witness :
    (selectorsOf [("variant", [("a", 1), ("b", 1)])] "" [variantProp]).Nodup ∧
    alookup (buildCssCore [("variant", [("a", 1), ("b", 1)])] "" [variantProp]
        false "flex" false).2 (childSelector "variant" "" "a")
      = some [("color", "a")] ∧
    alookup (buildCssCore [("variant", [("a", 1), ("b", 1)])] "" [variantProp]
        false "flex" false).2 (childSelector "variant" "" "b")
      = some [("color", "b")] :=
  ⟨by decide,
    (c6_child_variant_coexistence [("variant", [("a", 1), ("b", 1)])] "" [variantProp]
      false "flex" false (by decide)).1 variantProp (List.mem_cons_self _ _) rfl
      ("a", 1) (by decide),
    (c6_child_variant_coexistence [("variant", [("a", 1), ("b", 1)])] "" [variantProp]
      false "flex" false (by decide)).1 variantProp (List.mem_cons_self _ _) rfl
      ("b", 1) (by decide)⟩

end FlexLayout

namespace FlexLayout

/-! ## Claim theorems C4 and C5 -/

/-- C4 — Display persistence at the "all" breakpoint FAILS on the code: a
child-scoped attribute change at the empty alias, with no host-scoped
property tracking any value, rewrites the `flex-all` style block *without*
any `display` declaration (the constructor had written `display: flex`
there): `applyDefaults` is `!!alias` (line 66), which is `false` for the
empty alias, and the host bucket is empty, so lines 192–195 inject
nothing. -/
theorem c4_display_dropped_at_all_breakpoint :
    alookup st0C4.styleBlocks "flex-all"
        = some "@media all \x7b:host \x7bdisplay: flex;\x7d\x7d" ∧
      (attributeChangedCallback st0C4 "variant" none (some "a")).map
          (fun st => alookup st.styleBlocks "flex-all")
        = some (some "@media all \x7b::slotted([variant=\"a\"]) \x7bcolor: a;\x7d\x7d") :=
  ⟨rfl, rfl⟩

/-- C5 — Unknown property names FAIL to be processed without crashing: for a
name matching no descriptor, `_getPropertyByName` returns JS `undefined`
(the non-null-asserted `find` of line 210), line 48 pushes it into
`bp.properties`, and `_buildCss` line 153 throws a `TypeError` dereferencing
`p.child` on it — modelled as the `none` result. -/
theorem c5_unknown_property_crashes :
    attributeChangedCallback (initState "flex" [] [] []) "unknown" none (some "x")
      = none :=
  rfl

/-! ## Breakpoint isolation (C8) -/

theorem findBpIdx_alias : ∀ (bps : List BreakPointProperty) (a : String) (i : Nat)
    (d : BreakPointProperty), findBpIdx bps a = some i → (bps.getD i d).aliasName = a := by
  intro bps
  induction bps with
  | nil =>
    intro a i d h
    cases h
  | cons b rest ih =>
    intro a i d h
    simp only [findBpIdx] at h
    by_cases hb : b.aliasName = a
    · rw [if_pos hb] at h
      cases h
      exact hb
    · rw [if_neg hb] at h
      rcases Option.map_eq_some'.1 h with ⟨j, hj, rfl⟩
      simpa using ih a j d hj

theorem applyBp_styleBlocks (st : ElemState) (bpIdx : Option Nat)
    (bpProps : List (Option Property)) :
    (applyBp st bpIdx bpProps).styleBlocks = st.styleBlocks := by
  cases bpIdx <;> rfl

theorem applyBp_layoutType (st : ElemState) (bpIdx : Option Nat)
    (bpProps : List (Option Property)) :
    (applyBp st bpIdx bpProps).layoutType = st.layoutType := by
  cases bpIdx <;> rfl

theorem applyBp_propertyMap (st : ElemState) (bpIdx : Option Nat)
    (bpProps : List (Option Property)) :
    (applyBp st bpIdx bpProps).propertyMap = st.propertyMap := by
  cases bpIdx <;> rfl

/-- Whatever breakpoint was resolved, the callback body leaves every style
block other than the resolved breakpoint's own untouched. -/
theorem runCallback_styleBlocks_ne (st : ElemState) (name : String)
    (oldValue newValue : Option String) (bp : BreakPointProperty) (bpIdx : Option Nat)
    (id : String) (hid : id ≠ styleId st.layoutType bp.aliasName) :
    alookup ((runCallback st name oldValue newValue bp bpIdx).getD st).styleBlocks id
      = alookup st.styleBlocks id := by
  simp only [runCallback]
  split
  · rfl
  · split
    · rfl
    · simp only [Option.getD_some, attachCss]
      rw [applyBp_styleBlocks, applyBp_layoutType, alookup_mapSet, if_neg hid]

/-- C8 — Breakpoint isolation: when the alias decoded from the attribute
name exactly matches a registered breakpoint, `attributeChangedCallback`
writes only the style block whose id is derived from that alias
(`_attachCss`, lines 106–141); every other style block — in particular the
one of the empty alias — keeps its previous content (also when the call
crashes, since the throw happens before `_attachCss` runs). -/
theorem c8_breakpoint_isolation (st : ElemState) (name : String)
    (oldValue newValue : Option String) (id : String)
    (hreg : (findBpIdx st.breakpoints (nameAlias name)).isSome = true)
    (hid : id ≠ styleId st.layoutType (nameAlias name)) :
    alookup ((attributeChangedCallback st name oldValue newValue).getD st).styleBlocks id
      = alookup st.styleBlocks id := by
  simp only [attributeChangedCallback]
  cases hidx : findBpIdx st.breakpoints (nameAlias name) with
  | none =>
    rw [hidx] at hreg
    cases hreg
  | some i =>
    exact runCallback_styleBlocks_ne st name oldValue newValue
      (st.breakpoints.getD i st.allBreakpoint) (some i) id
      (by
        rw [findBpIdx_alias st.breakpoints (nameAlias name) i st.allBreakpoint hidx]
        exact hid)

end FlexLayout

namespace FlexLayout

/-! ## Unknown-alias machinery (C10) -/

theorem data_append (a b : String) : (a ++ b).data = a.data ++ b.data := by
  cases a
  cases b
  rfl

theorem trackerKey_empty (p : String) : trackerKey p "" = p := rfl

theorem trackerKey_not_dotFree (p a : String) (ha : a ≠ "") :
    dotFree (trackerKey p a) = false := by
  unfold trackerKey dotFree
  rw [if_neg ha]
  simp only [decide_eq_false_iff_not, not_not]
  show '.' ∈ (p ++ "." ++ a).data
  rw [data_append, data_append]
  simp [show ("." : String).data = ['.'] from rfl]

theorem dotFree_ne_trackerKey {s : String} (hs : dotFree s = true) (p a : String)
    (ha : a ≠ "") : s ≠ trackerKey p a := by
  intro h
  rw [h] at hs
  rw [trackerKey_not_dotFree p a ha] at hs
  cases hs

theorem mem_of_allSome : ∀ {xs : List (Option Property)} {l : List Property},
    allSome xs = some l → ∀ p ∈ l, some p ∈ xs := by
  intro xs
  induction xs with
  | nil =>
    intro l h p hp
    simp only [allSome] at h
    cases h
    cases hp
  | cons x rest ih =>
    intro l h p hp
    cases x with
    | none =>
      simp only [allSome] at h
      cases h
    | some a =>
      simp only [allSome] at h
      rcases Option.map_eq_some'.1 h with ⟨l', hl', rfl⟩
      rcases List.mem_cons.1 hp with rfl | hmr
      · exact List.mem_cons_self _ _
      · exact List.mem_cons_of_mem _ (ih hl' p hmr)

theorem findPropInList_mem : ∀ {bpProps : List (Option Property)} {prop : String}
    {q : Property}, findPropInList bpProps prop = some (some q) → some q ∈ bpProps := by
  intro bpProps
  induction bpProps with
  | nil =>
    intro prop q h
    simp only [findPropInList] at h
    cases h
  | cons x rest ih =>
    intro prop q h
    cases x with
    | none =>
      simp only [findPropInList] at h
      cases h
    | some p =>
      simp only [findPropInList] at h
      by_cases hp : p.name = prop
      · rw [if_pos hp] at h
        cases h
        exact List.mem_cons_self _ _
      · rw [if_neg hp] at h
        exact List.mem_cons_of_mem _ (ih h)

theorem getPropertyByName_mem {bpProps : List (Option Property)}
    {registry : List Property} {prop : String} {property : Option Property}
    {newProp : Bool}
    (h : getPropertyByName bpProps registry prop = some (property, newProp))
    {p : Property} (hp : property = some p) : some p ∈ bpProps ∨ p ∈ registry := by
  unfold getPropertyByName at h
  cases hf : findPropInList bpProps prop with
  | none =>
    rw [hf] at h
    cases h
  | some op =>
    rw [hf] at h
    cases op with
    | some q =>
      cases h
      cases hp
      left
      exact findPropInList_mem hf
    | none =>
      cases h
      right
      exact List.mem_of_find?_eq_some hp

theorem alookup_getValues_fst_present {pm : PropertyMap} {K : String} {vm : ValueMap}
    (h : alookup pm K = some vm) (n a : String) :
    alookup (getValues pm n a).1 K = some vm := by
  rw [alookup_getValues_fst]
  by_cases hK : K = trackerKey n a
  · rw [if_pos hK]
    unfold tracked
    rw [← hK, h]
    rfl
  · rw [if_neg hK]
    exact h

theorem alookup_hostStep_fst_present (a : String) (acc : PropertyMap × CssBuckets)
    (p : Property) {K : String} {vm : ValueMap} (h : alookup acc.1 K = some vm) :
    alookup (hostStep a acc p).1 K = some vm := by
  simp only [hostStep]
  cases hh : (getValues acc.1 p.name a).2 with
  | nil => exact alookup_getValues_fst_present h p.name a
  | cons hd tl =>
    cases hd
    exact alookup_getValues_fst_present h p.name a

theorem alookup_hostLoop_fst_present (a : String) : ∀ (ps : List Property)
    (acc : PropertyMap × CssBuckets) {K : String} {vm : ValueMap},
    alookup acc.1 K = some vm → alookup (ps.foldl (hostStep a) acc).1 K = some vm := by
  intro ps
  induction ps with
  | nil =>
    intro acc K vm h
    exact h
  | cons p rest ih =>
    intro acc K vm h
    simp only [List.foldl_cons]
    exact ih (hostStep a acc p) (alookup_hostStep_fst_present a acc p h)

theorem alookup_childLoop_fst_present (a : String) : ∀ (ps : List Property)
    (acc : PropertyMap × CssBuckets) {K : String} {vm : ValueMap},
    alookup acc.1 K = some vm → alookup (ps.foldl (childStep a) acc).1 K = some vm := by
  intro ps
  induction ps with
  | nil =>
    intro acc K vm h
    exact h
  | cons p rest ih =>
    intro acc K vm h
    simp only [List.foldl_cons]
    exact ih (childStep a acc p) (alookup_getValues_fst_present h p.name a)

theorem alookup_buildCssCore_fst_present (pm : PropertyMap) (a : String)
    (props : List Property) (inline : Bool) (lt : String) (ad : Bool)
    {K : String} {vm : ValueMap} (h : alookup pm K = some vm) :
    alookup (buildCssCore pm a props inline lt ad).1 K = some vm := by
  simp only [buildCssCore, buildCssLoops]
  exact alookup_childLoop_fst_present a _ _ (alookup_hostLoop_fst_present a _ _ h)

end FlexLayout

namespace FlexLayout

/-- C10 — Unknown-alias changes are recorded but never rendered: when the
non-empty alias matches no registered breakpoint, the callback falls back to
`_allBreakpoint` (lines 200–204); the value counts are updated under the
tracker key `<property>.<alias>` built from the *original* alias (line 214),
only the "all" style block is rewritten, and — since `_buildCss` runs with
the empty fallback alias and therefore reads only empty-alias tracker keys —
the written CSS is exactly what the *pre-change* tracker state synthesizes
at the "all" breakpoint, so the changed value never appears in it.  The
dot-free hypotheses on descriptor names rule out a registry name colliding
with the dotted key; the alias/mediaQuery hypotheses are the constructor's
`_allBreakpoint` invariants (lines 29–34). -/
theorem c10_unknown_alias_recorded_not_rendered (st : ElemState) (name : String)
    (oldValue newValue : Option String) (st' : ElemState)
    (h1 : nameAlias name ≠ "")
    (h2 : findBpIdx st.breakpoints (nameAlias name) = none)
    (h5a : st.allBreakpoint.aliasName = "")
    (h5b : st.allBreakpoint.mediaQuery = "all")
    (h4a : ∀ p ∈ st.properties, dotFree p.name = true)
    (h4b : ∀ op ∈ st.allBreakpoint.properties, ∀ p : Property, op = some p →
      dotFree p.name = true)
    (h3 : attributeChangedCallback st name oldValue newValue = some st') :
    alookup st'.propertyMap (nameProp name ++ "." ++ nameAlias name)
        = some (recordChange (tracked st.propertyMap (nameProp name) (nameAlias name))
            oldValue newValue) ∧
      (∀ id, id ≠ styleId st.layoutType "" →
        alookup st'.styleBlocks id = alookup st.styleBlocks id) ∧
      (∃ (props' : List Property) (inl : Bool),
        alookup st'.styleBlocks (styleId st.layoutType "")
          = some ("@media all \x7b" ++
              unwrapCss (buildCssCore st.propertyMap "" props' inl st.layoutType true).2
              ++ "\x7d")) := by
  have hK : nameProp name ++ "." ++ nameAlias name = keyOfName name := by
    unfold keyOfName trackerKey
    rw [if_neg h1]
  simp only [attributeChangedCallback, h2, runCallback] at h3
  split at h3
  · cases h3
  · next property newProp heqpr =>
    split at h3
    · cases h3
    · next r heqbc =>
      obtain rfl := Option.some_inj.mp h3
      -- name the pushed descriptor list
      have hmemname : ∀ p : Property,
          (some p ∈ (if newProp = true then st.allBreakpoint.properties ++ [property]
            else st.allBreakpoint.properties)) → dotFree p.name = true := by
        intro p hp
        by_cases hnp : newProp = true
        · rw [if_pos hnp] at hp
          rcases List.mem_append.1 hp with hpa | hps
          · exact h4b _ hpa p rfl
          · have : property = some p := by
              cases List.mem_cons.1 hps with
              | inl hh => exact hh.symm
              | inr hh => cases hh
            rcases getPropertyByName_mem heqpr this with hina | hinr
            · exact h4b _ hina p rfl
            · exact h4a p hinr
        · rw [if_neg hnp] at hp
          exact h4b _ hp p rfl
      -- break the buildCss result open
      cases has : allSome (if newProp = true then st.allBreakpoint.properties ++ [property]
          else st.allBreakpoint.properties) with
      | none =>
        rw [buildCss, has] at heqbc
        cases heqbc
      | some props' =>
        rw [buildCss, has] at heqbc
        obtain rfl := (Option.some_inj.mp heqbc).symm
        refine ⟨?_, ?_, ?_⟩
        · -- (a) counts filed under the dotted key
          show alookup (buildCssCore (trackerStep st.propertyMap name oldValue newValue)
              st.allBreakpoint.aliasName props'
              (st.hostAttrs.contains (if st.allBreakpoint.aliasName = "" then "inline"
                else "inline" ++ SEPARATOR ++ st.allBreakpoint.aliasName))
              st.layoutType (decide (nameAlias name ≠ ""))).1
            (nameProp name ++ "." ++ nameAlias name)
            = some (recordChange (tracked st.propertyMap (nameProp name) (nameAlias name))
                oldValue newValue)
          apply alookup_buildCssCore_fst_present
          rw [alookup_trackerStep, if_pos hK]
        · -- (b) only the all block is touched
          intro id hid
          simp only [attachCss]
          rw [applyBp_styleBlocks, applyBp_layoutType, h5a, alookup_mapSet, if_neg hid]
        · -- (c) the written CSS comes from the pre-change tracker state
          refine ⟨props', st.hostAttrs.contains
            (if st.allBreakpoint.aliasName = "" then "inline"
              else "inline" ++ SEPARATOR ++ st.allBreakpoint.aliasName), ?_⟩
          simp only [attachCss]
          rw [applyBp_styleBlocks, applyBp_layoutType]
          rw [alookup_mapSet, if_pos (by rw [h5a])]
          rw [h5b]
          rw [show (("@media " ++ "all") ++ " \x7b" : String) = "@media all \x7b" from rfl]
          have hcore : (buildCssCore
                (trackerStep st.propertyMap name oldValue newValue)
                st.allBreakpoint.aliasName props'
                (st.hostAttrs.contains (if st.allBreakpoint.aliasName = "" then "inline"
                  else "inline" ++ SEPARATOR ++ st.allBreakpoint.aliasName))
                st.layoutType (decide (nameAlias name ≠ ""))).2
              = (buildCssCore st.propertyMap "" props'
                (st.hostAttrs.contains (if st.allBreakpoint.aliasName = "" then "inline"
                  else "inline" ++ SEPARATOR ++ st.allBreakpoint.aliasName))
                st.layoutType true).2 := by
            rw [h5a, decide_eq_true h1]
            apply buildCssCore_snd_congr
            intro p hp
            apply tracked_trackerStep
            rw [trackerKey_empty]
            exact dotFree_ne_trackerKey (hmemname p (mem_of_allSome has p hp))
              (nameProp name) (nameAlias name) h1
          rw [hcore]

end FlexLayout

namespace FlexLayout

/-- Witness for `c8_breakpoint_isolation`: a `justify-sm` change on a layout
with registered breakpoint `sm` leaves the `flex-all` block untouched. -/
theorem c8_breakpoint_isolation_witness :
    (findBpIdx st0C8.breakpoints (nameAlias "justify-sm")).isSome = true ∧
    "flex-all" ≠ styleId st0C8.layoutType (nameAlias "justify-sm") ∧
    alookup ((attributeChangedCallback st0C8 "justify-sm" none
          (some "start")).getD st0C8).styleBlocks "flex-all"
      = alookup st0C8.styleBlocks "flex-all" :=
  ⟨by decide, by decide,
    c8_breakpoint_isolation st0C8 "justify-sm" none (some "start") "flex-all"
      (by decide) (by decide)⟩

/-- Witness for `c10_unknown_alias_recorded_not_rendered`: a `justify-md`
change with unregistered alias `md` files the count under `justify.md`,
leaves the `flex-sm` block untouched, and rewrites only the all block. -/
theorem c10_unknown_alias_witness :
    nameAlias "justify-md" ≠ "" ∧
    findBpIdx st0C8.breakpoints (nameAlias "justify-md") = none ∧
    alookup st1C10.propertyMap (nameProp "justify-md" ++ "." ++ nameAlias "justify-md")
        = some (recordChange (tracked st0C8.propertyMap (nameProp "justify-md")
            (nameAlias "justify-md")) none (some "start")) ∧
    alookup st1C10.styleBlocks "flex-sm" = alookup st0C8.styleBlocks "flex-sm" :=
  ⟨by decide, by decide,
    (c10_unknown_alias_recorded_not_rendered st0C8 "justify-md" none (some "start")
      st1C10 (by decide) (by decide) rfl rfl (by decide)
      (fun op hop => absurd hop (List.not_mem_nil op)) rfl).1,
    (c10_unknown_alias_recorded_not_rendered st0C8 "justify-md" none (some "start")
      st1C10 (by decide) (by decide) rfl rfl (by decide)
      (fun op hop => absurd hop (List.not_mem_nil op)) rfl).2.1 "flex-sm" (by decide)⟩

end FlexLayout
